import Mathlib

set_option maxHeartbeats 1000000

/-!
Shallow embedding of the chat_rs repository (crates chat_core, chat_server,
chat_client) and proofs about it.

Conventions:
- Rust `u8`/`u32`/`u64` values are `Nat` with explicit `% 2 ^ 32` (resp. bounds
  hypotheses) where overflow matters.
- Rust `String`s that travel through the protocol are modelled as their byte
  sequences, `List Nat`; `std::str::from_utf8(..).unwrap()` is modelled as the
  identity on byte lists.
- Reading from a TCP stream is modelled as consuming a prefix of a `List Nat`
  of bytes; an `io::Error` from `read_exact` (truncated input) is modelled as
  the error string `"read error"`.
- `Uuid` is modelled as `Nat`; timestamps (`DateTime<Utc>`) as `Nat`.
-/

/-- Message kinds of the wire protocol.  The eleven kinds with wire codes
(`Empty` .. `ServerDebugLog`, `Break`) are from the `MessageType` enum in
src/crates/chat_core/src/protocol.rs.  The five extension kinds
(`DirectMessageSend`, `DirectMessageReceive`, `MessageError`, `ServerShutdown`,
`ServerShutdownWarning`) are modelled from the spec: their enum entries are not
under src/ (only their callers in chat_server and chat_client are); spec §6
lists them as server-side extensions, without wire codes. -/
inductive MessageType where
  | Empty
  | Ack
  | Nack
  | Disconnect
  | Heartbeat
  | Auth
  | AuthCreate
  | AuthSuccess
  | AuthFailure
  | ServerDebugLog
  | DirectMessageSend
  | DirectMessageReceive
  | MessageError
  | ServerShutdown
  | ServerShutdownWarning
  | Break
deriving DecidableEq, Repr, Fintype

/-- The `repr(u8)` discriminant values of the `MessageType` enum in
src/crates/chat_core/src/protocol.rs (what `as u8` yields in `Message::send`).
The wire codes of the five spec-modelled extension kinds are not under src/;
they are mapped to 0 here and every theorem that mentions `toByte` restricts
itself to the core kinds via `MessageType.isCore`. -/
def MessageType.toByte : MessageType → Nat
  | .Empty => 0x00
  | .Ack => 0x01
  | .Nack => 0x02
  | .Disconnect => 0x03
  | .Heartbeat => 0x04
  | .Auth => 0x10
  | .AuthCreate => 0x11
  | .AuthSuccess => 0x12
  | .AuthFailure => 0x13
  | .ServerDebugLog => 0x20
  | .Break => 0xff
  | _ => 0x00

/-- True for the message kinds whose enum entry (and wire code) is present in
src/crates/chat_core/src/protocol.rs. -/
def MessageType.isCore : MessageType → Bool
  | .DirectMessageSend => false
  | .DirectMessageReceive => false
  | .MessageError => false
  | .ServerShutdown => false
  | .ServerShutdownWarning => false
  | _ => true

/-- `MessageType::from(value: u8)` from src/crates/chat_core/src/protocol.rs:
unknown codes fall back to `Empty`. -/
def MessageType.fromByte : Nat → MessageType
  | 0x00 => .Empty
  | 0x01 => .Ack
  | 0x02 => .Nack
  | 0x03 => .Disconnect
  | 0x04 => .Heartbeat
  | 0x10 => .Auth
  | 0x11 => .AuthCreate
  | 0x12 => .AuthSuccess
  | 0x13 => .AuthFailure
  | 0x20 => .ServerDebugLog
  | 0xff => .Break
  | _ => .Empty

/-- `const HEADER_START: u16 = 0x5918`. -/
def HEADER_START : Nat := 0x5918

/-- `const VERSION: u8 = 0x01`. -/
def VERSION : Nat := 0x01

/-! ### CRC-32 (the `crc32fast` collaborator)

`crc32fast::Hasher` computes the standard CRC-32/ISO-HDLC checksum:
state initialised to `0xFFFFFFFF`, each byte xored into the state followed by
eight reflected polynomial steps (polynomial `0xEDB88320`), final state xored
with `0xFFFFFFFF`.  Modelled bit-by-bit on `Nat`. -/

def CRC_POLY : Nat := 0xEDB88320

/-- One reflected CRC-32 bit step. -/
def bitStep (s : Nat) : Nat :=
  (s >>> 1) ^^^ (if s % 2 = 1 then CRC_POLY else 0)

/-- Eight bit steps: how one input byte is absorbed after being xored in. -/
def bitStep8 (s : Nat) : Nat :=
  bitStep (bitStep (bitStep (bitStep (bitStep (bitStep (bitStep (bitStep s)))))))

/-- Absorb one byte into the CRC state. -/
def byteStep (s b : Nat) : Nat := bitStep8 (s ^^^ b)

/-- `Hasher::update`: absorb a byte string into the CRC state. -/
def crcUpdate (s : Nat) (data : List Nat) : Nat := data.foldl byteStep s

/-- CRC-32 of a byte string (`Hasher::new` + one `update` + `finalize`). -/
def crc32 (data : List Nat) : Nat := crcUpdate 0xFFFFFFFF data ^^^ 0xFFFFFFFF

/-! ### Frame data model (src/crates/chat_core/src/protocol.rs) -/

/-- `struct Header { version: u8, message_type: MessageType }`. -/
structure Header where
  version : Nat
  message_type : MessageType
deriving DecidableEq, Repr

/-- `struct PayloadField { field_length: u32, field_data: Vec<u8> }`. -/
structure PayloadField where
  field_length : Nat
  field_data : List Nat
deriving DecidableEq, Repr

/-- `struct Payload { count: u32, fields: Vec<PayloadField> }`. -/
structure Payload where
  count : Nat
  fields : List PayloadField
deriving DecidableEq, Repr

/-- `struct Message { header: Header, payload: Payload, checksum: u32 }`. -/
structure Message where
  header : Header
  payload : Payload
  checksum : Nat
deriving DecidableEq, Repr

/-- `struct MessageBuilder { header: Header, payload: Payload }`. -/
structure MessageBuilder where
  header : Header
  payload : Payload
deriving DecidableEq, Repr

/-- `Header::from_message_type`. -/
def Header.from_message_type (message_type : MessageType) : Header :=
  { version := VERSION, message_type := message_type }

/-- `PayloadField::new` (`field_length = field_data.len() as u32`: the length
is stored truncated to 32 bits). -/
def PayloadField.new (field_data : List Nat) : PayloadField :=
  { field_length := field_data.length % 2 ^ 32, field_data := field_data }

/-- `Payload::EMPTY` / `Payload::default()`. -/
def Payload.EMPTY : Payload := { count := 0, fields := [] }

/-- `Payload::add_field` (`count: u32` is incremented; modelled without the
32-bit wrap, which every theorem excludes via a `count < 2 ^ 32` bound). -/
def Payload.add_field (p : Payload) (field_data : List Nat) : Payload :=
  { count := p.count + 1, fields := p.fields ++ [PayloadField.new field_data] }

/-- The CRC state after `Hasher::update` has been called once per field, in
order, starting from state `s`. -/
def crcFields (s : Nat) (fs : List PayloadField) : Nat :=
  fs.foldl (fun acc f => crcUpdate acc f.field_data) s

/-- `Payload::checksum`: one `Hasher` updated with each field's data in order,
then finalized.  The header and count bytes are never hashed. -/
def Payload.checksum (p : Payload) : Nat :=
  crcFields 0xFFFFFFFF p.fields ^^^ 0xFFFFFFFF

/-- `Payload::get_data`. -/
def Payload.get_data (p : Payload) : List (List Nat) :=
  p.fields.map PayloadField.field_data

/-! ### Message constructors (src/crates/chat_core/src/protocol.rs) -/

/-- `Message::ACK`. -/
def Message.ACK : Message :=
  { header := Header.from_message_type .Ack, payload := Payload.EMPTY, checksum := 0 }

/-- `Message::BREAK`. -/
def Message.BREAK : Message :=
  { header := Header.from_message_type .Break, payload := Payload.EMPTY, checksum := 0 }

/-- `Message::DISCONNECT`. -/
def Message.DISCONNECT : Message :=
  { header := Header.from_message_type .Disconnect, payload := Payload.EMPTY, checksum := 0 }

/-- `Message::EMPTY`. -/
def Message.EMPTY : Message :=
  { header := Header.from_message_type .Empty, payload := Payload.EMPTY, checksum := 0 }

/-- `Message::NACK`. -/
def Message.NACK : Message :=
  { header := Header.from_message_type .Nack, payload := Payload.EMPTY, checksum := 0 }

/-- `Message::SERVER_DEBUG_LOG`. -/
def Message.SERVER_DEBUG_LOG : Message :=
  { header := Header.from_message_type .ServerDebugLog, payload := Payload.EMPTY, checksum := 0 }

/-- Build a message of the given kind from a list of field byte strings, with
the checksum computed from the payload; the common body of the payload-carrying
constructors in protocol.rs. -/
def Message.ofFields (mt : MessageType) (fields : List (List Nat)) : Message :=
  let payload := fields.foldl Payload.add_field Payload.EMPTY
  { header := Header.from_message_type mt, payload := payload, checksum := payload.checksum }

/-- `Message::heartbeat()`: one field holding an RFC3339 timestamp string
(`Local::now()` is impure, so the timestamp bytes are a parameter). -/
def Message.heartbeat (timestamp : List Nat) : Message :=
  Message.ofFields .Heartbeat [timestamp]

/-- `Message::auth(username, password)`. -/
def Message.auth (username password : List Nat) : Message :=
  Message.ofFields .Auth [username, password]

/-- `Message::auth_create(username, password)`. -/
def Message.auth_create (username password : List Nat) : Message :=
  Message.ofFields .AuthCreate [username, password]

/-- `Message::auth_success()`. -/
def Message.auth_success : Message :=
  { header := Header.from_message_type .AuthSuccess, payload := Payload.EMPTY, checksum := 0 }

/-- `Message::auth_fail(error)`. -/
def Message.auth_fail (error : List Nat) : Message :=
  Message.ofFields .AuthFailure [error]

/-- Modelled from the spec: `Message::direct_message_receive(sender, body)` is
called by the server's direct-message handler but is not under src/; spec §4.1
describes `DirectMessageReceive` as a two-field message carrying sender+body. -/
def Message.direct_message_receive (sender body : List Nat) : Message :=
  Message.ofFields .DirectMessageReceive [sender, body]

/-- Modelled from the spec: `Message::message_error(reason)` is called by the
server's direct-message handler but is not under src/; spec §4.1 describes
`MessageError` as a one-field message carrying a reason string. -/
def Message.message_error (reason : List Nat) : Message :=
  Message.ofFields .MessageError [reason]

/-- `Message::is`. -/
def Message.is (m : Message) (message_type : MessageType) : Bool :=
  m.header.message_type = message_type

/-- `Message::message_type`. -/
def Message.message_type (m : Message) : MessageType :=
  m.header.message_type

/-! ### MessageBuilder (src/crates/chat_core/src/protocol.rs) -/

/-- `MessageBuilder::new`. -/
def MessageBuilder.new (message_type : MessageType) : MessageBuilder :=
  { header := { version := VERSION, message_type := message_type }, payload := Payload.EMPTY }

/-- `MessageBuilder::with_field`. -/
def MessageBuilder.with_field (b : MessageBuilder) (field_data : List Nat) : MessageBuilder :=
  { b with payload := b.payload.add_field field_data }

/-- `MessageBuilder::with_fields`. -/
def MessageBuilder.with_fields (b : MessageBuilder) (fields : List (List Nat)) : MessageBuilder :=
  fields.foldl MessageBuilder.with_field b

/-- `MessageBuilder::build`. -/
def MessageBuilder.build (b : MessageBuilder) : Message :=
  { header := b.header, payload := b.payload, checksum := b.payload.checksum }

/-! ### Wire encoding and decoding -/

/-- `u16::to_be_bytes`. -/
def be2 (n : Nat) : List Nat := [n / 2 ^ 8 % 2 ^ 8, n % 2 ^ 8]

/-- `u32::to_be_bytes`. -/
def be4 (n : Nat) : List Nat :=
  [n / 2 ^ 24 % 2 ^ 8, n / 2 ^ 16 % 2 ^ 8, n / 2 ^ 8 % 2 ^ 8, n % 2 ^ 8]

/-- `u32::from_be_bytes` on a 4-byte list. -/
def fromBe4 (l : List Nat) : Nat :=
  match l with
  | [a, b, c, d] => ((a * 2 ^ 8 + b) * 2 ^ 8 + c) * 2 ^ 8 + d
  | _ => 0

/-- The bytes `Message::send` writes for one payload field: 4-byte big-endian
length then the raw data. -/
def fieldBytes (f : PayloadField) : List Nat := be4 f.field_length ++ f.field_data

/-- The bytes `Message::send` writes for a field list. -/
def fieldsBytes (fs : List PayloadField) : List Nat := fs.foldr (fun f acc => fieldBytes f ++ acc) []

/-- `Message::send`: the exact byte string written to the socket — magic
constant, version, kind byte, big-endian field count, each field length-prefixed,
then the 4-byte big-endian checksum trailer. -/
def Message.send (m : Message) : List Nat :=
  be2 HEADER_START ++ [m.header.version, m.header.message_type.toByte]
    ++ be4 m.payload.count ++ fieldsBytes m.payload.fields ++ be4 m.checksum

/-- `read_exact` into an `n`-byte buffer: consume exactly `n` bytes or fail. -/
def readBytes (n : Nat) (l : List Nat) : Option (List Nat × List Nat) :=
  if n ≤ l.length then some (l.take n, l.drop n) else none

/-- The field-reading loop of `Message::receive` (`for _ in 0..payload_count`),
accumulating into the builder. -/
def readFieldsLoop : Nat → MessageBuilder → List Nat → Except String (MessageBuilder × List Nat)
  | 0, b, l => .ok (b, l)
  | n + 1, b, l =>
    match readBytes 4 l with
    | none => .error "read error"
    | some (lenBytes, rest) =>
      match readBytes (fromBe4 lenBytes) rest with
      | none => .error "read error"
      | some (field_data, rest') => readFieldsLoop n (b.with_field field_data) rest'

/-- `Message::receive`: reads the version byte (rejecting a mismatch), the kind
byte, the field count, each length-prefixed field, then the checksum trailer,
which must equal the checksum recomputed from the just-read fields. -/
def Message.receive (input : List Nat) : Except String Message :=
  match readBytes 1 input with
  | none => .error "read error"
  | some (versionBytes, rest) =>
    if versionBytes.headD 0 ≠ VERSION then .error "Invalid version"
    else
      match readBytes 1 rest with
      | none => .error "read error"
      | some (kindBytes, rest) =>
        let builder := MessageBuilder.new (MessageType.fromByte (kindBytes.headD 0))
        match readBytes 4 rest with
        | none => .error "read error"
        | some (countBytes, rest) =>
          match readFieldsLoop (fromBe4 countBytes) builder rest with
          | .error e => .error e
          | .ok (builder, rest) =>
            match readBytes 4 rest with
            | none => .error "read error"
            | some (checksumBytes, _) =>
              if fromBe4 checksumBytes ≠ builder.payload.checksum then .error "Invalid checksum"
              else .ok builder.build

/-- `u16::from_be_bytes` on a 2-byte list. -/
def fromBe2 (l : List Nat) : Nat :=
  match l with
  | [a, b] => a * 2 ^ 8 + b
  | _ => 0

/-- `Message::has_header_start`: consume exactly 2 bytes and report whether
they equal the magic constant (also returning the remaining stream). -/
def Message.has_header_start (input : List Nat) : Bool × List Nat :=
  match readBytes 2 input with
  | none => (false, input.drop 2)
  | some (magic, rest) => (fromBe2 magic = HEADER_START, rest)

/-! ### Association lists (models of `std::collections::HashMap`) -/

/-- `HashMap::get`. -/
def lookupA {κ α : Type} [DecidableEq κ] (k : κ) : List (κ × α) → Option α
  | [] => none
  | (k', v) :: l => if k' = k then some v else lookupA k l

/-- `HashMap::insert` (replaces an existing binding for the key). -/
def insertA {κ α : Type} [DecidableEq κ] (k : κ) (v : α) : List (κ × α) → List (κ × α)
  | [] => [(k, v)]
  | (k', v') :: l => if k' = k then (k, v) :: l else (k', v') :: insertA k v l

/-- `HashMap::get_mut` followed by an in-place mutation. -/
def updateA {κ α : Type} [DecidableEq κ] (k : κ) (f : α → α) : List (κ × α) → List (κ × α)
  | [] => []
  | (k', v) :: l => if k' = k then (k', f v) :: l else (k', v) :: updateA k f l

/-- `HashMap::remove`. -/
def removeA {κ α : Type} [DecidableEq κ] (k : κ) : List (κ × α) → List (κ × α)
  | [] => []
  | (k', v) :: l => if k' = k then l else (k', v) :: removeA k l

/-- UTF-8 strings as byte lists (all string literals used by the handlers are
ASCII, where `Char.toNat` agrees with UTF-8). -/
def strBytes (s : String) : List Nat := s.toList.map Char.toNat

/-! ### Access control (src/crates/chat_server/src/application/session.rs) -/

/-- `enum AccessLevel { Guest, User, Admin }`. -/
inductive AccessLevel where
  | Guest
  | User
  | Admin
deriving DecidableEq, Repr, Fintype

/-- `AccessLevel::GUEST_ACCESS_GROUP`. -/
def GUEST_ACCESS_GROUP : List MessageType :=
  [.AuthCreate, .Auth, .Heartbeat, .Disconnect]

/-- `AccessLevel::USER_ACCESS_GROUP`. -/
def USER_ACCESS_GROUP : List MessageType := []

/-- `AccessLevel::ADMIN_ACCESS_GROUP`. -/
def ADMIN_ACCESS_GROUP : List MessageType := [.ServerDebugLog]

/-- The `AccessLevel::Guest` arm of `can_access`. -/
def canAccessGuest (mt : MessageType) : Bool := GUEST_ACCESS_GROUP.contains mt

/-- The `AccessLevel::User` arm of `can_access`. -/
def canAccessUser (mt : MessageType) : Bool :=
  USER_ACCESS_GROUP.contains mt || canAccessGuest mt

/-- The `AccessLevel::Admin` arm of `can_access`. -/
def canAccessAdmin (mt : MessageType) : Bool :=
  ADMIN_ACCESS_GROUP.contains mt || canAccessUser mt || canAccessGuest mt

/-- `AccessLevel::can_access`. -/
def AccessLevel.can_access : AccessLevel → MessageType → Bool
  | .Guest, mt => canAccessGuest mt
  | .User, mt => canAccessUser mt
  | .Admin, mt => canAccessAdmin mt

/-! ### Users (src/crates/chat_server/src/application/user.rs) -/

/-- `struct User { name, pw_hash, access_level, session_id }`. -/
structure User where
  name : List Nat
  pw_hash : String
  access_level : AccessLevel
  session_id : Option Nat
deriving DecidableEq, Repr

/-- `User::new`: fresh users start at `AccessLevel::User` with no bound session. -/
def User.new (name : List Nat) (pw_hash : String) : User :=
  { name := name, pw_hash := pw_hash, access_level := .User, session_id := none }

/-- `User::set_access_level`. -/
def User.set_access_level (u : User) (access_level : AccessLevel) : User :=
  { u with access_level := access_level }

/-- `User::set_session_id`. -/
def User.set_session_id (u : User) (session_id : Nat) : User :=
  { u with session_id := some session_id }

/-- `User::remove_session_id`. -/
def User.remove_session_id (u : User) : User :=
  { u with session_id := none }

/-! ### Sessions (src/crates/chat_server/src/application/session.rs)

The `tx: Option<mpsc::UnboundedSender<Message>>` outbound-channel handle is
modelled as the queue of messages enqueued on it, `queue : List Message`. -/

/-- `struct Session { id, user, access_level, tx, last_heartbeat, closed }`. -/
structure Session where
  id : Nat
  user : Option (List Nat)
  access_level : AccessLevel
  queue : List Message
  last_heartbeat : Option Nat
  closed : Bool
deriving DecidableEq, Repr

/-- `Session::new` (the fresh `Uuid` is a parameter). -/
def Session.new (id : Nat) : Session :=
  { id := id, user := none, access_level := .Guest, queue := [], last_heartbeat := none,
    closed := false }

/-- `Session::set_user`. -/
def Session.set_user (s : Session) (user : List Nat) : Session :=
  { s with user := some user }

/-- `Session::set_access_level`. -/
def Session.set_access_level (s : Session) (access_level : AccessLevel) : Session :=
  { s with access_level := access_level }

/-- `Session::close`. -/
def Session.close (s : Session) : Session := { s with closed := true }

/-- `Session::is_closed`. -/
def Session.is_closed (s : Session) : Bool := s.closed

/-- `Session::update_heartbeat(heartbeat: Option<DateTime<Utc>>)`: uses the
given timestamp, or the current time (`now`) when none is given. -/
def Session.update_heartbeat (s : Session) (now : Nat) (heartbeat : Option Nat) : Session :=
  { s with last_heartbeat := some (heartbeat.getD now) }

/-- Modelled from the spec: `Session::send` (called by the direct-message and
shutdown handlers) is not under src/; spec §4.6 describes it as enqueueing the
message directly onto that session's outbound queue. -/
def Session.send (s : Session) (m : Message) : Session :=
  { s with queue := s.queue ++ [m] }

/-! ### The shared directory (src/crates/chat_server/src/application/mod.rs)

`SharedState` holds `users: HashMap<String, User>` and
`sessions: HashMap<Uuid, ArcRwLock<Session>>`; the `shutdown_tx` channel is
not needed by any claim and is omitted.  Operations that `.unwrap()` a lookup
that can fail return `Option SharedState`, `none` modelling the panic. -/

structure SharedState where
  users : List (List Nat × User)
  sessions : List (Nat × Session)
deriving DecidableEq, Repr

/-- The argon2 hash literal of the built-in admin user in `SharedState::new`. -/
def luffyHash : String :=
  "$argon2id$v=19$m=19456,t=2,p=1$cmFuZG9tc2FsdA$jDQwPD4k6mPV4oT/0Y4M2nhVSGDxpbbJaxIbNYc84rU"

/-- `SharedState::new`: one built-in user `luffy` at Admin level. -/
def SharedState.new : SharedState :=
  { users := [(strBytes ("luffy"), (User.new (strBytes ("luffy")) luffyHash).set_access_level .Admin)],
    sessions := [] }

/-- `SharedState::add_user`. -/
def SharedState.add_user (st : SharedState) (name : List Nat) (user : User) : SharedState :=
  { st with users := insertA name user st.users }

/-- `SharedState::add_session`. -/
def SharedState.add_session (st : SharedState) (id : Nat) (session : Session) : SharedState :=
  { st with sessions := insertA id session st.sessions }

/-- `SharedState::get_user`. -/
def SharedState.get_user (st : SharedState) (name : List Nat) : Option User :=
  lookupA name st.users

/-- `SharedState::remove_session`: a no-op when the id is absent; otherwise, if
the session has a bound user, that user's session pointer is cleared via
`self.users.get_mut(user).unwrap()` — `none` models that unwrap panicking when
the bound user is not in the map — and the session is removed. -/
def SharedState.remove_session (st : SharedState) (id : Nat) : Option SharedState :=
  match lookupA id st.sessions with
  | none => some st
  | some session =>
    match session.user with
    | some name =>
      match lookupA name st.users with
      | none => none
      | some _ =>
        some { st with users := updateA name User.remove_session_id st.users,
                       sessions := removeA id st.sessions }
    | none => some { st with sessions := removeA id st.sessions }

/-- `SharedState::is_active_session`. -/
def SharedState.is_active_session (st : SharedState) (id : Nat) : Bool :=
  match lookupA id st.sessions with
  | some s => !s.is_closed
  | none => false

/-- `SharedState::close_session`: when the id is present, mark the session
closed, then remove it. -/
def SharedState.close_session (st : SharedState) (id : Nat) : Option SharedState :=
  match lookupA id st.sessions with
  | none => some st
  | some _ => SharedState.remove_session { st with sessions := updateA id Session.close st.sessions } id

/-- `SharedState::update_heartbeat`. -/
def SharedState.update_heartbeat (st : SharedState) (id : Nat) (heartbeat : Option Nat)
    (now : Nat) : SharedState :=
  match lookupA id st.sessions with
  | none => st
  | some _ => { st with sessions := updateA id (fun s => s.update_heartbeat now heartbeat) st.sessions }

/-- `SharedState::is_authenticated`. -/
def SharedState.is_authenticated (st : SharedState) (id : Nat) : Bool :=
  match lookupA id st.sessions with
  | some s => s.user.isSome
  | none => false

/-- `SharedState::sync_access_level`. -/
def SharedState.sync_access_level (st : SharedState) (id : Nat) (user : List Nat) : SharedState :=
  match lookupA id st.sessions with
  | none => st
  | some _ =>
    match lookupA user st.users with
    | none => st
    | some u => { st with sessions := updateA id (fun s => s.set_access_level u.access_level) st.sessions }

/-- `SharedState::authenticate`: when the session exists, set the user's bound
session pointer (if the user exists), sync the session's access level from the
user record, and bind the session to the username. -/
def SharedState.authenticate (st : SharedState) (id : Nat) (user : List Nat) : SharedState :=
  match lookupA id st.sessions with
  | none => st
  | some _ =>
    let st1 :=
      match lookupA user st.users with
      | some _ => { st with users := updateA user (fun u => u.set_session_id id) st.users }
      | none => st
    let st2 := st1.sync_access_level id user
    { st2 with sessions := updateA id (fun s => s.set_user user) st2.sessions }

/-- `SharedState::get_access_level`: Guest when the id is unknown. -/
def SharedState.get_access_level (st : SharedState) (id : Nat) : AccessLevel :=
  match lookupA id st.sessions with
  | some s => s.access_level
  | none => .Guest

/-- Modelled from the spec: `SharedState::get_user_by_session` (called by the
direct-message handler) is not under src/; spec §4.4 lists
`getUsernameBySession(id)` as the reverse lookup of the session's bound
username. -/
def SharedState.get_user_by_session (st : SharedState) (id : Nat) : Option (List Nat) :=
  match lookupA id st.sessions with
  | some s => s.user
  | none => none

/-- Modelled from the spec: `SharedState::get_session_by_user` (called by the
direct-message handler) is not under src/; spec §4.4 lists
`getSessionByUsername(name)` as the reverse lookup of the session currently
authenticated as that user; returns its id. -/
def SharedState.get_session_by_user (st : SharedState) (name : List Nat) : Option Nat :=
  (st.sessions.find? (fun p => p.2.user == some name)).map (fun p => p.1)

/-! ### Handlers (src/crates/chat_server/src/application/handles/) -/

/-- A Rust panic inside a handler: an out-of-bounds index (`data[i]` on too few
fields) or a failed `.unwrap()`. -/
inductive Panic where
  | outOfBounds
  | unwrapFailed
deriving DecidableEq, Repr

/-- `handle_auth` (handles/auth.rs).  The argon2 password check
(`argon2::verify_encoded`) is an external collaborator and is a parameter
`verify : pw_hash → password bytes → Bool`. -/
def handle_auth (verify : String → List Nat → Bool) (st : SharedState) (session_id : Nat)
    (message : Message) : Except Panic (SharedState × List Message) :=
  if st.is_authenticated session_id then .ok (st, [Message.NACK])
  else
    match (message.payload.get_data)[0]? with
    | none => .error Panic.outOfBounds
    | some username =>
      match st.get_user username with
      | some user =>
        if user.session_id.isSome then
          .ok (st, [Message.auth_fail (strBytes ("User already logged in"))])
        else
          match (message.payload.get_data)[1]? with
          | none => .error Panic.outOfBounds
          | some password =>
            if verify user.pw_hash password then
              .ok (st.authenticate session_id user.name, [Message.auth_success])
            else
              .ok (st, [Message.auth_fail (strBytes ("Invalid username or password"))])
      | none => .ok (st, [Message.auth_fail (strBytes ("Invalid username or password"))])

/-- `handle_auth_create` (handles/auth.rs).  The argon2 hashing
(`argon2::hash_encoded`) is an external collaborator and is a parameter
`hash : password bytes → pw_hash`. -/
def handle_auth_create (hash : List Nat → String) (st : SharedState) (session_id : Nat)
    (message : Message) : Except Panic (SharedState × List Message) :=
  if st.is_authenticated session_id then .ok (st, [Message.NACK])
  else
    match (message.payload.get_data)[0]? with
    | none => .error Panic.outOfBounds
    | some username =>
      match st.get_user username with
      | none =>
        match (message.payload.get_data)[1]? with
        | none => .error Panic.outOfBounds
        | some password =>
          let user := User.new username (hash password)
          let st1 := st.add_user username user
          let st2 := st1.authenticate session_id username
          .ok (st2, [Message.auth_success])
      | some _ => .ok (st, [Message.auth_fail (strBytes ("User already exists"))])

/-- `handle_heartbeat` (handles/mod.rs): reads field 0, parses it as an RFC3339
timestamp (`parse` is the chrono collaborator; a `none` result models
`DateTime::parse_from_rfc3339(..).unwrap()` panicking), and stores it via
`update_heartbeat`. -/
def handle_heartbeat (parse : List Nat → Option Nat) (now : Nat) (st : SharedState)
    (session_id : Nat) (message : Message) : Except Panic SharedState :=
  match (message.payload.get_data)[0]? with
  | none => .error Panic.outOfBounds
  | some tsBytes =>
    match parse tsBytes with
    | none => .error Panic.unwrapFailed
    | some ts => .ok (st.update_heartbeat session_id (some ts) now)

/-- `handle_direct_message_send` (handles/message.rs): fields 0 and 1 are the
recipient name and the body; the sender's own name is resolved through
`get_user_by_session(..).unwrap()` (a `none` models that unwrap panicking for
an unauthenticated sender); if a session is authenticated as the recipient the
`DirectMessageReceive` is enqueued on that session's queue, otherwise a
`MessageError` naming the recipient is sent back on the caller's own queue. -/
def handle_direct_message_send (st : SharedState) (session_id : Nat)
    (message : Message) : Except Panic (SharedState × List Message) :=
  match (message.payload.get_data)[0]? with
  | none => .error Panic.outOfBounds
  | some recipient =>
    match (message.payload.get_data)[1]? with
    | none => .error Panic.outOfBounds
    | some body =>
      match st.get_user_by_session session_id with
      | none => .error Panic.unwrapFailed
      | some sender =>
        match st.get_session_by_user recipient with
        | some rid =>
          .ok ({ st with
                  sessions := updateA rid
                    (fun s => s.send (Message.direct_message_receive sender body)) st.sessions },
               [])
        | none =>
          .ok (st, [Message.message_error
                      (strBytes ("User ") ++ recipient ++ strBytes (" is not connected"))])

/-! ### The send tasks (server.rs `Server::handle_send`, client mod.rs
`Application::handle_send`)

One loop iteration dequeues a message; a `Break` is intercepted before
serialization.  The loop's effects are modelled as the trace of events it
produces when draining a queue: `wrote m` for each frame actually serialized
onto the wire, `teardown` for each `handle_disconnect` (server) /
disconnect-signal (client).  The stream-write error branch only adds a
teardown, never a write, so it is not distinguished here. -/

inductive SendEvent where
  | wrote (m : Message)
  | teardown
deriving DecidableEq, Repr

/-- The server send task (`Server::handle_send`) draining a queue: a dequeued
`Break` tears the session down and stops the task without writing; otherwise
the message is written, and a written `Disconnect` also tears down and stops. -/
def serverSendTrace : List Message → List SendEvent
  | [] => []
  | m :: rest =>
    if m.is .Break then [SendEvent.teardown]
    else SendEvent.wrote m ::
      (if m.is .Disconnect then [SendEvent.teardown] else serverSendTrace rest)

/-- The client send task (`Application::handle_send`) draining a queue: a
dequeued `Break` stops the task without writing; a written `Disconnect`
signals the receive task to stop and stops. -/
def clientSendTrace : List Message → List SendEvent
  | [] => []
  | m :: rest =>
    if m.is .Break then []
    else SendEvent.wrote m ::
      (if m.is .Disconnect then [SendEvent.teardown] else clientSendTrace rest)

/-- A trace event that is not the serialization of a `Break` frame. -/
def SendEvent.notWroteBreak : SendEvent → Bool
  | .wrote m => !(m.is .Break)
  | .teardown => true

/-! ### Directory operation sequences (claim C5)

`DirOp` is the alphabet of directory operations named by claim C5;
`applyOps` runs a sequence (panicking operations fall back to leaving the
state unchanged, which is irrelevant for the sequences considered: under the
guarded relation below they never panic, and the counterexample sequence never
removes a session). -/

inductive DirOp where
  | addUser (name : List Nat) (user : User)
  | addSession (id : Nat) (session : Session)
  | authenticate (id : Nat) (name : List Nat)
  | removeSession (id : Nat)
  | closeSession (id : Nat)
deriving DecidableEq, Repr

def applyOp (st : SharedState) : DirOp → SharedState
  | .addUser name user => st.add_user name user
  | .addSession id session => st.add_session id session
  | .authenticate id name => st.authenticate id name
  | .removeSession id => (st.remove_session id).getD st
  | .closeSession id => (st.close_session id).getD st

def applyOps (st : SharedState) (ops : List DirOp) : SharedState :=
  ops.foldl applyOp st

/-- Directory states reachable from `SharedState::new` by the operations of
claim C5 with the preconditions under which the server invokes them: new users
are registered under fresh names with no bound session (`User::new`), sessions
are registered fresh (`Session::new`-like: unbound, not closed) under fresh
ids, and `authenticate` is only invoked — as in `handle_auth` /
`handle_auth_create` — for an existing unauthenticated session and an existing
user with no currently bound session. -/
inductive Reachable : SharedState → Prop
  | init : Reachable SharedState.new
  | addUser {st name user} : Reachable st →
      lookupA name st.users = none →
      user.session_id = none →
      Reachable (st.add_user name user)
  | addSession {st id session} : Reachable st →
      lookupA id st.sessions = none →
      session.user = none →
      session.closed = false →
      Reachable (st.add_session id session)
  | authenticate {st id name sess user} : Reachable st →
      lookupA id st.sessions = some sess →
      sess.user = none →
      lookupA name st.users = some user →
      user.session_id = none →
      Reachable (st.authenticate id name)
  | removeSession {st st' id} : Reachable st →
      st.remove_session id = some st' →
      Reachable st'
  | closeSession {st st' id} : Reachable st →
      st.close_session id = some st' →
      Reachable st'

/-- The ids of the live sessions currently authenticated as `name`, in
directory order. -/
def SharedState.authedSessions (st : SharedState) (name : List Nat) : List Nat :=
  (st.sessions.filter (fun p => p.2.user == some name && !p.2.closed)).map (fun p => p.1)

/-- The bound-session invariant claimed by C5, as a decidable check: every
user's `session_id` is `some s` exactly when `s` identifies the unique live
session authenticated as that user, and `none` exactly when no live session
is. -/
def boundSessionInv (st : SharedState) : Bool :=
  st.users.all (fun p =>
    match p.2.session_id with
    | some s => st.authedSessions p.1 == [s]
    | none => st.authedSessions p.1 == [])

/-! ### Association-list lemmas -/

section AssocLemmas

variable {κ α : Type} [DecidableEq κ]

theorem lookupA_insertA_self (k : κ) (v : α) (l : List (κ × α)) :
    lookupA k (insertA k v l) = some v := by
  induction l with
  | nil => simp [insertA, lookupA]
  | cons p l ih =>
    by_cases h : p.1 = k
    · simp [insertA, lookupA, h]
    · simpa [insertA, lookupA, h] using ih

theorem lookupA_insertA_ne (k k' : κ) (v : α) (l : List (κ × α)) (h : k' ≠ k) :
    lookupA k' (insertA k v l) = lookupA k' l := by
  have h' : k ≠ k' := Ne.symm h
  induction l with
  | nil => simp [insertA, lookupA, h, h']
  | cons p l ih =>
    by_cases hp : p.1 = k
    · simp [insertA, lookupA, hp, h, h']
    · by_cases hp' : p.1 = k'
      · simp [insertA, lookupA, hp, hp', h, h']
      · simpa [insertA, lookupA, hp, hp', h, h'] using ih

theorem lookupA_updateA_self (k : κ) (f : α → α) (l : List (κ × α)) :
    lookupA k (updateA k f l) = (lookupA k l).map f := by
  induction l with
  | nil => simp [updateA, lookupA]
  | cons p l ih =>
    by_cases h : p.1 = k
    · simp [updateA, lookupA, h]
    · simpa [updateA, lookupA, h] using ih

theorem lookupA_updateA_ne (k k' : κ) (f : α → α) (l : List (κ × α)) (h : k' ≠ k) :
    lookupA k' (updateA k f l) = lookupA k' l := by
  have h' : k ≠ k' := Ne.symm h
  induction l with
  | nil => simp [updateA, lookupA]
  | cons p l ih =>
    by_cases hp : p.1 = k
    · simp [updateA, lookupA, hp, h, h']
    · by_cases hp' : p.1 = k'
      · simp [updateA, lookupA, hp, hp', h, h']
      · simpa [updateA, lookupA, hp, hp', h, h'] using ih

theorem lookupA_removeA_ne (k k' : κ) (l : List (κ × α)) (h : k' ≠ k) :
    lookupA k' (removeA k l) = lookupA k' l := by
  have h' : k ≠ k' := Ne.symm h
  induction l with
  | nil => simp [removeA, lookupA]
  | cons p l ih =>
    by_cases hp : p.1 = k
    · have hp' : p.1 ≠ k' := by
        intro hh
        exact h (hh ▸ hp)
      simp [removeA, lookupA, hp, hp', h, h']
    · by_cases hp' : p.1 = k'
      · simp [removeA, lookupA, hp, hp', h, h']
      · simpa [removeA, lookupA, hp, hp', h, h'] using ih

end AssocLemmas

/-! ### Claim C2: the access-control table -/

/-- C2, counterexample: the claim states that Admin's extra set per the §4.3
table contains `ServerShutdown`, but `AccessLevel::can_access` in
src/crates/chat_server/src/application/session.rs places only `ServerDebugLog`
in `ADMIN_ACCESS_GROUP`, so an Admin session is denied `ServerShutdown`. -/
theorem c2_admin_denied_server_shutdown :
    AccessLevel.can_access AccessLevel.Admin MessageType.ServerShutdown = false := by
  decide

/-- C2, amended: `can_access` matches the code's table — Guest allows exactly
`AuthCreate`, `Auth`, `Heartbeat`, `Disconnect`; User's extra set is empty so
User's allowed set EQUALS Guest's (not a strict superset); Admin's extra set is
exactly `ServerDebugLog` (not also `ServerShutdown`), and Admin's set is a
strict superset of User's.  Each level's set is the union of its extras with
the lower levels' sets. -/
theorem c2_access_table_amended :
    (∀ mt : MessageType, AccessLevel.can_access .Guest mt = true ↔ mt ∈ GUEST_ACCESS_GROUP)
  ∧ (∀ mt : MessageType, AccessLevel.can_access .User mt = AccessLevel.can_access .Guest mt)
  ∧ (∀ mt : MessageType,
      AccessLevel.can_access .Admin mt = true ↔ (mt = .ServerDebugLog ∨ mt ∈ GUEST_ACCESS_GROUP))
  ∧ (∀ mt : MessageType,
      AccessLevel.can_access .Guest mt = true → AccessLevel.can_access .Admin mt = true)
  ∧ AccessLevel.can_access .Guest .ServerDebugLog = false
  ∧ AccessLevel.can_access .Admin .ServerDebugLog = true := by
  decide

/-! ### Claim C8: the Break sentinel is never written to the wire -/

/-- C8: draining any outbound queue, neither the server's send task
(`Server::handle_send`) nor the client's (`Application::handle_send`) ever
produces a wire write of a `Break`-kind frame; a dequeued `Break` stops the
task before serialization — on the server it triggers session teardown
(`handle_disconnect`) and terminates the loop, on the client it terminates the
loop. -/
theorem c8_break_never_transmitted :
    (∀ queue : List Message, (serverSendTrace queue).all SendEvent.notWroteBreak = true)
  ∧ (∀ queue : List Message, (clientSendTrace queue).all SendEvent.notWroteBreak = true)
  ∧ (∀ queue : List Message, serverSendTrace (Message.BREAK :: queue) = [SendEvent.teardown])
  ∧ (∀ queue : List Message, clientSendTrace (Message.BREAK :: queue) = []) := by
  refine ⟨?_, ?_, ?_, ?_⟩
  · intro queue
    induction queue with
    | nil => rfl
    | cons m rest ih =>
      by_cases hb : m.is .Break
      · simp [serverSendTrace, hb, SendEvent.notWroteBreak]
      · by_cases hd : m.is .Disconnect
        · simp [serverSendTrace, hb, hd, SendEvent.notWroteBreak]
        · simp [serverSendTrace, hb, hd, SendEvent.notWroteBreak, ih]
  · intro queue
    induction queue with
    | nil => rfl
    | cons m rest ih =>
      by_cases hb : m.is .Break
      · simp [clientSendTrace, hb]
      · by_cases hd : m.is .Disconnect
        · simp [clientSendTrace, hb, hd, SendEvent.notWroteBreak]
        · simp [clientSendTrace, hb, hd, SendEvent.notWroteBreak, ih]
  · intro queue
    rfl
  · intro queue
    rfl

/-! ### Claim C9: handlers panic on too-few-field frames -/

/-- C9: the claim (and spec §7) requires dispatch to never abort on a decoded
frame, but `handle_auth` indexes `data[0]` unconditionally: a perfectly valid
`Auth` frame with zero fields (count 0, checksum 0 = CRC-32 of nothing),
handled for an unauthenticated session, makes the handler panic with an
out-of-bounds index instead of degrading to a reply. -/
theorem c9_zero_field_auth_panics :
    handle_auth (fun _ _ => true) (SharedState.new.add_session 7 (Session.new 7)) 7
      (MessageBuilder.new .Auth).build = .error Panic.outOfBounds := by
  rfl

/-! ### Claim C10: directory operations on an unknown session id -/

/-- C10: for a session id not in the directory, `is_active_session` and
`is_authenticated` return false, `get_access_level` returns Guest, and
`update_heartbeat`, `close_session` and `authenticate` leave the state
unchanged (no panic: `close_session` returns the state itself). -/
theorem c10_unknown_session_degrades (st : SharedState) (id : Nat) (hb : Option Nat)
    (now : Nat) (name : List Nat) (h : lookupA id st.sessions = none) :
    st.is_active_session id = false
  ∧ st.is_authenticated id = false
  ∧ st.get_access_level id = .Guest
  ∧ st.update_heartbeat id hb now = st
  ∧ st.close_session id = some st
  ∧ st.authenticate id name = st := by
  refine ⟨?_, ?_, ?_, ?_, ?_, ?_⟩
  · simp [SharedState.is_active_session, h]
  · simp [SharedState.is_authenticated, h]
  · simp [SharedState.get_access_level, h]
  · simp [SharedState.update_heartbeat, h]
  · simp [SharedState.close_session, h]
  · simp [SharedState.authenticate, h]

/-- C10 witness: the fresh directory has no session 3, and every degradation
of `c10_unknown_session_degrades` holds there. -/
theorem c10_witness :
    lookupA 3 SharedState.new.sessions = none
  ∧ (SharedState.new.is_active_session 3 = false
  ∧ SharedState.new.is_authenticated 3 = false
  ∧ SharedState.new.get_access_level 3 = .Guest
  ∧ SharedState.new.update_heartbeat 3 (some 44) 55 = SharedState.new
  ∧ SharedState.new.close_session 3 = some SharedState.new
  ∧ SharedState.new.authenticate 3 (strBytes ("luffy")) = SharedState.new) :=
  ⟨rfl, c10_unknown_session_degrades SharedState.new 3 (some 44) 55 (strBytes ("luffy")) rfl⟩

/-! ### Payload/constructor facts -/

theorem foldl_add_field_fields (fields : List (List Nat)) (p : Payload) :
    (fields.foldl Payload.add_field p).fields = p.fields ++ fields.map PayloadField.new := by
  induction fields generalizing p with
  | nil => simp
  | cons f fs ih => simp [ih, Payload.add_field]

theorem foldl_add_field_count (fields : List (List Nat)) (p : Payload) :
    (fields.foldl Payload.add_field p).count = p.count + fields.length := by
  induction fields generalizing p with
  | nil => simp
  | cons f fs ih =>
    simp only [List.foldl_cons, ih, Payload.add_field, List.length_cons]
    omega

theorem ofFields_get_data (mt : MessageType) (fields : List (List Nat)) :
    (Message.ofFields mt fields).payload.get_data = fields := by
  simp only [Message.ofFields, Payload.get_data, foldl_add_field_fields, Payload.EMPTY]
  induction fields with
  | nil => rfl
  | cons f fs ih => simpa [PayloadField.new] using ih

/-! ### `authenticate` facts -/

theorem authenticate_binds (st : SharedState) (id : Nat) (name : List Nat) (sess : Session)
    (hs : lookupA id st.sessions = some sess) :
    ∃ sess' : Session,
      lookupA id (st.authenticate id name).sessions = some sess' ∧ sess'.user = some name := by
  unfold SharedState.authenticate SharedState.sync_access_level
  cases hu : lookupA name st.users with
  | none =>
    simp only [hs, hu, lookupA_updateA_self]
    exact ⟨sess.set_user name, by simp [hs], rfl⟩
  | some u =>
    simp only [hs, hu, lookupA_updateA_self]
    refine ⟨(sess.set_access_level (u.set_session_id id).access_level).set_user name, ?_, rfl⟩
    simp [hs, hu, lookupA_updateA_self]

theorem authenticate_found (st : SharedState) (id : Nat) (name : List Nat) (sess : Session)
    (u : User)
    (hs : lookupA id st.sessions = some sess)
    (hu : lookupA name st.users = some u) :
    (st.authenticate id name).users = updateA name (fun w => w.set_session_id id) st.users
  ∧ lookupA id (st.authenticate id name).sessions =
      some ((sess.set_access_level (u.set_session_id id).access_level).set_user name) := by
  unfold SharedState.authenticate SharedState.sync_access_level
  constructor
  · simp [hs, hu, lookupA_updateA_self]
  · simp [hs, hu, lookupA_updateA_self]

/-! ### Claim C3: the Auth handler's reply cases -/

/-- C3: for an `Auth(username, password)` frame handled for a live session:
already authenticated → `Nack`; unknown username, or known+unbound but failing
password verification → `AuthFailure("Invalid username or password")`; known
but already bound to a session → `AuthFailure("User already logged in")`
regardless of the password (in particular even when it is correct — the bound
check precedes verification); known, unbound, password verifies → the session
is authenticated to that user and the reply is `AuthSuccess`. -/
theorem c3_auth_reply_cases (verify : String → List Nat → Bool) (st : SharedState)
    (sid : Nat) (u p : List Nat) (sess : Session)
    (hsess : lookupA sid st.sessions = some sess) :
    (st.is_authenticated sid = true →
       handle_auth verify st sid (Message.auth u p) = .ok (st, [Message.NACK]))
  ∧ (st.is_authenticated sid = false → st.get_user u = none →
       handle_auth verify st sid (Message.auth u p) =
         .ok (st, [Message.auth_fail (strBytes ("Invalid username or password"))]))
  ∧ (∀ user : User, st.is_authenticated sid = false → st.get_user u = some user →
       user.session_id.isSome = true →
       handle_auth verify st sid (Message.auth u p) =
         .ok (st, [Message.auth_fail (strBytes ("User already logged in"))]))
  ∧ (∀ user : User, st.is_authenticated sid = false → st.get_user u = some user →
       user.session_id = none → verify user.pw_hash p = false →
       handle_auth verify st sid (Message.auth u p) =
         .ok (st, [Message.auth_fail (strBytes ("Invalid username or password"))]))
  ∧ (∀ user : User, st.is_authenticated sid = false → st.get_user u = some user →
       user.session_id = none → verify user.pw_hash p = true →
       ∃ sess' : Session,
         handle_auth verify st sid (Message.auth u p) =
           .ok (st.authenticate sid user.name, [Message.auth_success])
         ∧ lookupA sid (st.authenticate sid user.name).sessions = some sess'
         ∧ sess'.user = some user.name
         ∧ (st.authenticate sid user.name).is_authenticated sid = true) := by
  refine ⟨?_, ?_, ?_, ?_, ?_⟩
  · intro hauth
    simp [handle_auth, hauth]
  · intro hauth huser
    simp [handle_auth, hauth, huser, Message.auth, ofFields_get_data]
  · intro user hauth huser hbound
    simp [handle_auth, hauth, huser, hbound, Message.auth, ofFields_get_data]
  · intro user hauth huser hbound hverify
    simp [handle_auth, hauth, huser, hbound, hverify, Message.auth, ofFields_get_data]
  · intro user hauth huser hbound hverify
    obtain ⟨sess', hlook, huser'⟩ := authenticate_binds st sid user.name sess hsess
    refine ⟨sess', ?_, hlook, huser', ?_⟩
    · simp [handle_auth, hauth, huser, hbound, hverify, Message.auth, ofFields_get_data]
    · simp [SharedState.is_authenticated, hlook, huser']

/-- A directory with one fresh (Guest, unauthenticated) session 1, used by the
witnesses. -/
def stWithSession : SharedState := SharedState.new.add_session 1 (Session.new 1)

/-- C3 witness: in the fresh directory with session 1, the user `luffy` exists
with no bound session, so all five cases of `c3_auth_reply_cases` are
available; instantiated with a verifier that accepts everything. -/
theorem c3_witness :
    lookupA 1 stWithSession.sessions = some (Session.new 1)
  ∧ ((stWithSession.is_authenticated 1 = true →
        handle_auth (fun _ _ => true) stWithSession 1 (Message.auth (strBytes ("luffy")) [7]) =
          .ok (stWithSession, [Message.NACK]))
  ∧ (stWithSession.is_authenticated 1 = false → stWithSession.get_user (strBytes ("luffy")) = none →
        handle_auth (fun _ _ => true) stWithSession 1 (Message.auth (strBytes ("luffy")) [7]) =
          .ok (stWithSession, [Message.auth_fail (strBytes ("Invalid username or password"))]))
  ∧ (∀ user : User, stWithSession.is_authenticated 1 = false →
        stWithSession.get_user (strBytes ("luffy")) = some user →
        user.session_id.isSome = true →
        handle_auth (fun _ _ => true) stWithSession 1 (Message.auth (strBytes ("luffy")) [7]) =
          .ok (stWithSession, [Message.auth_fail (strBytes ("User already logged in"))]))
  ∧ (∀ user : User, stWithSession.is_authenticated 1 = false →
        stWithSession.get_user (strBytes ("luffy")) = some user →
        user.session_id = none → (fun (_ : String) (_ : List Nat) => true) user.pw_hash [7] = false →
        handle_auth (fun _ _ => true) stWithSession 1 (Message.auth (strBytes ("luffy")) [7]) =
          .ok (stWithSession, [Message.auth_fail (strBytes ("Invalid username or password"))]))
  ∧ (∀ user : User, stWithSession.is_authenticated 1 = false →
        stWithSession.get_user (strBytes ("luffy")) = some user →
        user.session_id = none → (fun (_ : String) (_ : List Nat) => true) user.pw_hash [7] = true →
        ∃ sess' : Session,
          handle_auth (fun _ _ => true) stWithSession 1 (Message.auth (strBytes ("luffy")) [7]) =
            .ok (stWithSession.authenticate 1 user.name, [Message.auth_success])
          ∧ lookupA 1 (stWithSession.authenticate 1 user.name).sessions = some sess'
          ∧ sess'.user = some user.name
          ∧ (stWithSession.authenticate 1 user.name).is_authenticated 1 = true)) :=
  ⟨rfl, c3_auth_reply_cases (fun _ _ => true) stWithSession 1 (strBytes ("luffy")) [7]
          (Session.new 1) rfl⟩

/-! ### Claim C4: AuthCreate on a fresh directory -/

/-- C4: on a directory with no user named `alice`, `AuthCreate(alice, pw)`
from a live unauthenticated session replies `AuthSuccess` and leaves the
session authenticated as `alice` at access level User (the level `User::new`
assigns and `authenticate` syncs onto the session); afterwards a second
`AuthCreate(alice, p)` from any unauthenticated session replies
`AuthFailure("User already exists")` and leaves the whole directory — in
particular alice's user record — unchanged. -/
theorem c4_auth_create_fresh (hash : List Nat → String) (st : SharedState) (sid : Nat)
    (alice pw : List Nat) (sess : Session)
    (hsess : lookupA sid st.sessions = some sess)
    (hunauth : st.is_authenticated sid = false)
    (hfresh : st.get_user alice = none) :
    ∃ st' : SharedState,
      handle_auth_create hash st sid (Message.auth_create alice pw) =
        .ok (st', [Message.auth_success])
    ∧ st'.is_authenticated sid = true
    ∧ st'.get_user_by_session sid = some alice
    ∧ st'.get_access_level sid = AccessLevel.User
    ∧ st'.get_user alice = some ((User.new alice (hash pw)).set_session_id sid)
    ∧ (∀ sid2 : Nat, ∀ p2 : List Nat, st'.is_authenticated sid2 = false →
        handle_auth_create hash st' sid2 (Message.auth_create alice p2) =
          .ok (st', [Message.auth_fail (strBytes ("User already exists"))])) := by
  set st1 := st.add_user alice (User.new alice (hash pw)) with hst1
  have hsess1 : lookupA sid st1.sessions = some sess := hsess
  have hu1 : lookupA alice st1.users = some (User.new alice (hash pw)) :=
    lookupA_insertA_self alice (User.new alice (hash pw)) st.users
  obtain ⟨husers, hlook⟩ :=
    authenticate_found st1 sid alice sess (User.new alice (hash pw)) hsess1 hu1
  set st2 := st1.authenticate sid alice with hst2
  refine ⟨st2, ?_, ?_, ?_, ?_, ?_, ?_⟩
  · have hfresh' : lookupA alice st.users = none := hfresh
    simp [handle_auth_create, hunauth, hfresh', Message.auth_create, ofFields_get_data,
      SharedState.get_user, hst2, hst1]
  · simp [SharedState.is_authenticated, hlook, Session.set_user]
  · simp [SharedState.get_user_by_session, hlook, Session.set_user]
  · simp [SharedState.get_access_level, hlook, Session.set_user, Session.set_access_level,
      User.set_session_id, User.new]
  · show lookupA alice st2.users = _
    rw [husers]
    simp [hu1, lookupA_updateA_self]
  · intro sid2 p2 hunauth2
    have hexists : st2.get_user alice = some ((User.new alice (hash pw)).set_session_id sid) := by
      show lookupA alice st2.users = _
      rw [husers]
      simp [hu1, lookupA_updateA_self]
    simp [handle_auth_create, hunauth2, hexists, Message.auth_create, ofFields_get_data]

/-- C4 witness: creating user `a` (byte `[97]`) with password `[5]` in the
fresh directory with session 1, with a constant hash function. -/
theorem c4_witness :
    lookupA 1 stWithSession.sessions = some (Session.new 1)
  ∧ stWithSession.is_authenticated 1 = false
  ∧ stWithSession.get_user [97] = none
  ∧ (∃ st' : SharedState,
      handle_auth_create (fun _ => "h") stWithSession 1 (Message.auth_create [97] [5]) =
        .ok (st', [Message.auth_success])
    ∧ st'.is_authenticated 1 = true
    ∧ st'.get_user_by_session 1 = some [97]
    ∧ st'.get_access_level 1 = AccessLevel.User
    ∧ st'.get_user [97] = some ((User.new [97] ((fun _ => "h") [5])).set_session_id 1)
    ∧ (∀ sid2 : Nat, ∀ p2 : List Nat, st'.is_authenticated sid2 = false →
        handle_auth_create (fun _ => "h") st' sid2 (Message.auth_create [97] p2) =
          .ok (st', [Message.auth_fail (strBytes ("User already exists"))]))) :=
  ⟨rfl, rfl, by decide,
    c4_auth_create_fresh (fun _ => "h") stWithSession 1 [97] [5] (Session.new 1)
      rfl rfl (by decide)⟩

/-! ### Claim C6: direct-message routing -/

/-- C6, counterexample: the claim asserts that direct messaging is available to
every authenticated session (with only the bound-identity requirement enforced
inside the handler), but the access table in session.rs admits
`DirectMessageSend` at no level — in particular not at `User`, the level every
freshly authenticated session gets, nor at `Admin` — so the receive task's
access check (server.rs) replies `Nack` and never dispatches the handler. -/
theorem c6_direct_message_send_denied :
    AccessLevel.can_access AccessLevel.User MessageType.DirectMessageSend = false
  ∧ AccessLevel.can_access AccessLevel.Admin MessageType.DirectMessageSend = false := by
  decide

/-- C6, amended: `handle_direct_message_send`, when invoked for a session bound
to `sender` (the access table as in src/ never lets the receive task dispatch
it, so this describes the handler itself): if some live session is
authenticated as the recipient, a `DirectMessageReceive(sender, body)` is
enqueued on that session's outbound queue and the sender gets no reply;
otherwise the state is unchanged and the sender receives
`MessageError("User {recipient} is not connected")` on its own queue. -/
theorem c6_direct_message_routing (st : SharedState) (sid : Nat)
    (recipient body sender : List Nat)
    (hsender : st.get_user_by_session sid = some sender) :
    (∀ rid : Nat, ∀ rsess : Session,
       st.get_session_by_user recipient = some rid →
       lookupA rid st.sessions = some rsess →
       ∃ st' : SharedState,
         handle_direct_message_send st sid (Message.ofFields .DirectMessageSend [recipient, body]) =
           .ok (st', [])
       ∧ lookupA rid st'.sessions =
           some { rsess with queue := rsess.queue ++ [Message.direct_message_receive sender body] }
       ∧ st'.users = st.users)
  ∧ (st.get_session_by_user recipient = none →
       handle_direct_message_send st sid (Message.ofFields .DirectMessageSend [recipient, body]) =
         .ok (st, [Message.message_error
                    (strBytes ("User ") ++ recipient ++ strBytes (" is not connected"))])) := by
  constructor
  · intro rid rsess hfound hrsess
    refine ⟨{ st with sessions := updateA rid (fun s => s.send (Message.direct_message_receive sender body)) st.sessions }, ?_, ?_, rfl⟩
    · simp [handle_direct_message_send, ofFields_get_data, hsender, hfound]
    · simp [hrsess, lookupA_updateA_self, Session.send]
  · intro hnone
    simp [handle_direct_message_send, ofFields_get_data, hsender, hnone]

/-- A directory with a session 1 authenticated as user `a` (byte `[97]`) and a
session 2 authenticated as user `b` (byte `[98]`), used by the C6 witness. -/
def stTwoUsers : SharedState :=
  ((stWithSession.add_session 2 (Session.new 2)).authenticate 1 [97]).authenticate 2 [98]

/-- C6 witness: in `stTwoUsers`, session 1 is bound to `[97]`, session 2 is the
live session authenticated as `[98]`, and both branches of
`c6_direct_message_routing` are available. -/
theorem c6_witness :
    stTwoUsers.get_user_by_session 1 = some [97]
  ∧ ((∀ rid : Nat, ∀ rsess : Session,
       stTwoUsers.get_session_by_user [98] = some rid →
       lookupA rid stTwoUsers.sessions = some rsess →
       ∃ st' : SharedState,
         handle_direct_message_send stTwoUsers 1
             (Message.ofFields .DirectMessageSend [[98], [104, 105]]) = .ok (st', [])
       ∧ lookupA rid st'.sessions =
           some { rsess with
                    queue := rsess.queue ++ [Message.direct_message_receive [97] [104, 105]] }
       ∧ st'.users = stTwoUsers.users)
  ∧ (stTwoUsers.get_session_by_user [98] = none →
       handle_direct_message_send stTwoUsers 1
           (Message.ofFields .DirectMessageSend [[98], [104, 105]]) =
         .ok (stTwoUsers, [Message.message_error
                    (strBytes ("User ") ++ [98] ++ strBytes (" is not connected"))]))) :=
  ⟨rfl, c6_direct_message_routing stTwoUsers 1 [98] [104, 105] [97] rfl⟩

/-! ### CRC-32 range facts -/

theorem xorLt32 {a b : Nat} (ha : a < 2 ^ 32) (hb : b < 2 ^ 32) : a ^^^ b < 2 ^ 32 := by
  have h := @Nat.bitwise_lt bne a b 32 ha hb
  simpa [HXor.hXor, Xor.xor, Nat.xor] using h

theorem bitStep_lt {s : Nat} (h : s < 2 ^ 32) : bitStep s < 2 ^ 32 := by
  unfold bitStep
  have h1 : s >>> 1 < 2 ^ 32 := by
    rw [Nat.shiftRight_one]
    omega
  split
  · exact xorLt32 h1 (by norm_num [CRC_POLY])
  · simpa using h1

theorem bitStep8_lt {s : Nat} (h : s < 2 ^ 32) : bitStep8 s < 2 ^ 32 := by
  unfold bitStep8
  exact bitStep_lt (bitStep_lt (bitStep_lt (bitStep_lt
    (bitStep_lt (bitStep_lt (bitStep_lt (bitStep_lt h)))))))

theorem byteStep_lt {s b : Nat} (hs : s < 2 ^ 32) (hb : b < 2 ^ 32) :
    byteStep s b < 2 ^ 32 :=
  bitStep8_lt (xorLt32 hs hb)

theorem crcUpdate_lt {s : Nat} {l : List Nat} (hs : s < 2 ^ 32) (hl : ∀ b ∈ l, b < 2 ^ 32) :
    crcUpdate s l < 2 ^ 32 := by
  induction l generalizing s with
  | nil => simpa [crcUpdate] using hs
  | cons b l ih =>
    have hb : b < 2 ^ 32 := hl b (by simp)
    have : crcUpdate s (b :: l) = crcUpdate (byteStep s b) l := rfl
    rw [this]
    exact ih (byteStep_lt hs hb) (fun x hx => hl x (by simp [hx]))

theorem crcFields_lt {s : Nat} {fs : List PayloadField} (hs : s < 2 ^ 32)
    (hl : ∀ f ∈ fs, ∀ b ∈ f.field_data, b < 2 ^ 32) :
    crcFields s fs < 2 ^ 32 := by
  induction fs generalizing s with
  | nil => simpa [crcFields] using hs
  | cons f fs ih =>
    have : crcFields s (f :: fs) = crcFields (crcUpdate s f.field_data) fs := rfl
    rw [this]
    exact ih (crcUpdate_lt hs (hl f (by simp))) (fun g hg => hl g (by simp [hg]))

theorem checksum_lt (p : Payload) (hl : ∀ f ∈ p.fields, ∀ b ∈ f.field_data, b < 2 ^ 32) :
    p.checksum < 2 ^ 32 :=
  xorLt32 (crcFields_lt (by norm_num) hl) (by norm_num)

/-! ### Decoding an encoded frame -/

theorem readBytes_exact (l1 l2 : List Nat) (n : Nat) (h : l1.length = n) :
    readBytes n (l1 ++ l2) = some (l1, l2) := by
  subst h
  have hle : l1.length ≤ (l1 ++ l2).length := by simp
  simp [readBytes, hle, List.take_left, List.drop_left]

theorem readBytes_all (l : List Nat) (n : Nat) (h : l.length = n) :
    readBytes n l = some (l, []) := by
  subst h
  simp [readBytes]

theorem fromBe4_be4 (n : Nat) (h : n < 2 ^ 32) : fromBe4 (be4 n) = n := by
  simp only [be4, fromBe4]
  have h8 : (2 : Nat) ^ 8 = 256 := by norm_num
  have h16 : (2 : Nat) ^ 16 = 65536 := by norm_num
  have h24 : (2 : Nat) ^ 24 = 16777216 := by norm_num
  have h32 : (2 : Nat) ^ 32 = 4294967296 := by norm_num
  rw [h8, h16, h24] at *
  rw [h32] at h
  omega

theorem fromByte_toByte (mt : MessageType) (h : mt.isCore = true) :
    MessageType.fromByte mt.toByte = mt := by
  cases mt <;> first | rfl | simp_all [MessageType.isCore]

theorem fieldsBytes_cons (f : PayloadField) (fs : List PayloadField) :
    fieldsBytes (f :: fs) = fieldBytes f ++ fieldsBytes fs := rfl

theorem readFieldsLoop_encoded (fs : List PayloadField) (b : MessageBuilder) (tail : List Nat)
    (hfs : ∀ f ∈ fs, f.field_length = f.field_data.length ∧ f.field_data.length < 2 ^ 32) :
    readFieldsLoop fs.length b (fieldsBytes fs ++ tail) =
      .ok (fs.foldl (fun bb f => bb.with_field f.field_data) b, tail) := by
  induction fs generalizing b with
  | nil => rfl
  | cons f fs ih =>
    obtain ⟨hlen, hlt⟩ := hfs f (by simp)
    have hshape : fieldsBytes (f :: fs) ++ tail
        = be4 f.field_length ++ (f.field_data ++ (fieldsBytes fs ++ tail)) := by
      simp [fieldsBytes_cons, fieldBytes, List.append_assoc]
    have r1 : readBytes 4 (fieldsBytes (f :: fs) ++ tail)
        = some (be4 f.field_length, f.field_data ++ (fieldsBytes fs ++ tail)) := by
      rw [hshape]
      exact readBytes_exact _ _ 4 rfl
    have r2 : fromBe4 (be4 f.field_length) = f.field_data.length :=
      (fromBe4_be4 _ (by rw [hlen]; exact hlt)).trans hlen
    have r3 : readBytes f.field_data.length (f.field_data ++ (fieldsBytes fs ++ tail))
        = some (f.field_data, fieldsBytes fs ++ tail) :=
      readBytes_exact _ _ _ rfl
    simp only [List.length_cons, readFieldsLoop, r1, r2, r3, List.foldl_cons]
    exact ih (b.with_field f.field_data) (fun g hg => hfs g (by simp [hg]))

theorem foldl_with_field (fs : List PayloadField) (b : MessageBuilder) :
    fs.foldl (fun bb f => bb.with_field f.field_data) b =
      { header := b.header,
        payload := { count := b.payload.count + fs.length,
                     fields := b.payload.fields
                                 ++ fs.map (fun f => PayloadField.new f.field_data) } } := by
  induction fs generalizing b with
  | nil => simp
  | cons f fs ih =>
    rw [List.foldl_cons, ih]
    simp only [MessageBuilder.with_field, Payload.add_field, List.map_cons, List.length_cons,
      MessageBuilder.mk.injEq, Payload.mk.injEq]
    refine ⟨trivial, by omega, by simp⟩

theorem map_new_eq_self (fs : List PayloadField)
    (hfs : ∀ f ∈ fs, f.field_length = f.field_data.length ∧ f.field_data.length < 2 ^ 32) :
    fs.map (fun f => PayloadField.new f.field_data) = fs := by
  induction fs with
  | nil => rfl
  | cons f fs ih =>
    obtain ⟨hlen, hlt⟩ := hfs f (by simp)
    have hf : PayloadField.new f.field_data = f := by
      have h1 : f.field_data.length % 2 ^ 32 = f.field_length := by
        rw [Nat.mod_eq_of_lt hlt, hlen]
      calc PayloadField.new f.field_data
          = ⟨f.field_data.length % 2 ^ 32, f.field_data⟩ := rfl
        _ = ⟨f.field_length, f.field_data⟩ := by rw [h1]
        _ = f := rfl
    simp only [List.map_cons, hf]
    rw [ih (fun g hg => hfs g (by simp [hg]))]

theorem receive_encoded (mt : MessageType) (hmt : mt.isCore = true)
    (fs : List PayloadField) (c : Nat)
    (hcount : fs.length < 2 ^ 32) (hc : c < 2 ^ 32)
    (hfs : ∀ f ∈ fs, f.field_length = f.field_data.length ∧ f.field_data.length < 2 ^ 32) :
    Message.receive ([VERSION, mt.toByte] ++ (be4 fs.length ++ (fieldsBytes fs ++ be4 c))) =
      if c = Payload.checksum ⟨fs.length, fs⟩ then
        .ok { header := ⟨VERSION, mt⟩, payload := ⟨fs.length, fs⟩,
              checksum := Payload.checksum ⟨fs.length, fs⟩ }
      else .error "Invalid checksum" := by
  have r1 : readBytes 1 ([VERSION, mt.toByte] ++ (be4 fs.length ++ (fieldsBytes fs ++ be4 c)))
      = some ([VERSION], [mt.toByte] ++ (be4 fs.length ++ (fieldsBytes fs ++ be4 c))) := by
    have hshape : [VERSION, mt.toByte] ++ (be4 fs.length ++ (fieldsBytes fs ++ be4 c))
        = [VERSION] ++ ([mt.toByte] ++ (be4 fs.length ++ (fieldsBytes fs ++ be4 c))) := by simp
    rw [hshape]
    exact readBytes_exact _ _ 1 rfl
  have r2 : readBytes 1 ([mt.toByte] ++ (be4 fs.length ++ (fieldsBytes fs ++ be4 c)))
      = some ([mt.toByte], be4 fs.length ++ (fieldsBytes fs ++ be4 c)) :=
    readBytes_exact _ _ 1 rfl
  have r3 : readBytes 4 (be4 fs.length ++ (fieldsBytes fs ++ be4 c))
      = some (be4 fs.length, fieldsBytes fs ++ be4 c) :=
    readBytes_exact _ _ 4 rfl
  have r4 : readFieldsLoop fs.length (MessageBuilder.new mt) (fieldsBytes fs ++ be4 c)
      = .ok (fs.foldl (fun bb f => bb.with_field f.field_data) (MessageBuilder.new mt), be4 c) :=
    readFieldsLoop_encoded fs (MessageBuilder.new mt) (be4 c) hfs
  have r5 : readBytes 4 (be4 c) = some (be4 c, []) := readBytes_all _ _ rfl
  have hbuild : fs.foldl (fun bb f => bb.with_field f.field_data) (MessageBuilder.new mt)
      = { header := ⟨VERSION, mt⟩, payload := ⟨fs.length, fs⟩ } := by
    rw [foldl_with_field]
    simp [MessageBuilder.new, Payload.EMPTY, map_new_eq_self fs hfs, Header.from_message_type]
  simp only [Message.receive, r1, r2, r3, r4, r5, List.headD, fromBe4_be4 fs.length hcount,
    fromBe4_be4 c hc, fromByte_toByte mt hmt, hbuild, MessageBuilder.build, ne_eq,
    ite_not]
  by_cases hcc : c = Payload.checksum ⟨fs.length, fs⟩
  · simp [hcc]
  · simp [hcc]

/-! ### Claim C1: encode/decode round trip -/

/-- C1: for every message whose stored checksum equals the checksum computed
from its fields — as every public constructor and `MessageBuilder::build`
guarantee — and whose components respect the wire's `u32` widths (for a core
kind, since the extension kinds' wire codes are not under src/), encoding with
`Message::send` and decoding the produced bytes with
`Message::has_header_start` followed by `Message::receive` succeeds and
returns the message itself: in particular the kind and the ordered field byte
strings are reproduced exactly. -/
theorem c1_encode_decode_roundtrip (m : Message)
    (hv : m.header.version = VERSION)
    (hmt : m.header.message_type.isCore = true)
    (hcount : m.payload.count = m.payload.fields.length)
    (hlenf : m.payload.fields.length < 2 ^ 32)
    (hfs : ∀ f ∈ m.payload.fields,
      f.field_length = f.field_data.length ∧ f.field_data.length < 2 ^ 32)
    (hbytes : ∀ f ∈ m.payload.fields, ∀ b ∈ f.field_data, b < 2 ^ 32)
    (hck : m.checksum = m.payload.checksum) :
    (Message.has_header_start m.send).1 = true
  ∧ Message.receive (Message.has_header_start m.send).2 = .ok m := by
  have hsend : m.send = be2 HEADER_START
      ++ ([VERSION, m.header.message_type.toByte]
        ++ (be4 m.payload.fields.length ++ (fieldsBytes m.payload.fields ++ be4 m.checksum))) := by
    simp [Message.send, hv, hcount, List.append_assoc]
  have hread : readBytes 2 m.send = some (be2 HEADER_START,
      [VERSION, m.header.message_type.toByte]
        ++ (be4 m.payload.fields.length ++ (fieldsBytes m.payload.fields ++ be4 m.checksum))) := by
    rw [hsend]
    exact readBytes_exact _ _ 2 rfl
  have hmagic : fromBe2 (be2 HEADER_START) = HEADER_START := rfl
  have hhs : Message.has_header_start m.send = (true,
      [VERSION, m.header.message_type.toByte]
        ++ (be4 m.payload.fields.length ++ (fieldsBytes m.payload.fields ++ be4 m.checksum))) := by
    simp [Message.has_header_start, hread, hmagic]
  have hcklt : m.checksum < 2 ^ 32 := by
    rw [hck]
    exact checksum_lt m.payload hbytes
  have hck' : m.checksum = Payload.checksum ⟨m.payload.fields.length, m.payload.fields⟩ := hck
  have hmsg : Message.mk ⟨VERSION, m.header.message_type⟩
      ⟨m.payload.fields.length, m.payload.fields⟩
      (Payload.checksum ⟨m.payload.fields.length, m.payload.fields⟩) = m := by
    cases m with
    | mk hd pl ck =>
      cases hd with
      | mk v mt =>
        cases pl with
        | mk cnt fls =>
          simp only at hv hcount hck'
          simp [hv, hcount, hck'.symm]
  have h2 := receive_encoded m.header.message_type hmt m.payload.fields m.checksum hlenf hcklt hfs
  refine ⟨?_, ?_⟩
  · rw [hhs]
  · rw [hhs]
    show Message.receive _ = _
    rw [h2, if_pos hck', hmsg]

/-- C1 witness: the two-field message `Message::auth([97], [98])` satisfies
every width hypothesis and round-trips to itself. -/
theorem c1_witness :
    ((Message.auth [97] [98]).header.version = VERSION
  ∧ (Message.auth [97] [98]).header.message_type.isCore = true
  ∧ (Message.auth [97] [98]).payload.count = (Message.auth [97] [98]).payload.fields.length
  ∧ (Message.auth [97] [98]).payload.fields.length < 2 ^ 32
  ∧ (∀ f ∈ (Message.auth [97] [98]).payload.fields,
      f.field_length = f.field_data.length ∧ f.field_data.length < 2 ^ 32)
  ∧ (∀ f ∈ (Message.auth [97] [98]).payload.fields, ∀ b ∈ f.field_data, b < 2 ^ 32)
  ∧ (Message.auth [97] [98]).checksum = (Message.auth [97] [98]).payload.checksum)
  ∧ ((Message.has_header_start (Message.auth [97] [98]).send).1 = true
  ∧ Message.receive (Message.has_header_start (Message.auth [97] [98]).send).2 =
      .ok (Message.auth [97] [98])) :=
  ⟨⟨rfl, rfl, rfl, by decide, by decide, by decide, rfl⟩,
    c1_encode_decode_roundtrip (Message.auth [97] [98]) rfl rfl rfl
      (by decide) (by decide) (by decide) rfl⟩

/-! ### CRC-32 is GF(2)-linear and detects single-bit flips -/

theorem shiftRight_one_xor (a b : Nat) : (a ^^^ b) >>> 1 = (a >>> 1) ^^^ (b >>> 1) := by
  apply Nat.eq_of_testBit_eq
  intro i
  simp [Nat.testBit_shiftRight, Nat.testBit_xor]

theorem mod_two_xor (a b : Nat) : (a ^^^ b) % 2 = (a % 2) ^^^ (b % 2) := by
  rw [← Nat.and_one_is_mod, ← Nat.and_one_is_mod, ← Nat.and_one_is_mod,
    Nat.and_xor_distrib_right]

theorem bitStep_xor (a b : Nat) : bitStep (a ^^^ b) = bitStep a ^^^ bitStep b := by
  unfold bitStep
  rw [shiftRight_one_xor, mod_two_xor]
  rcases Nat.mod_two_eq_zero_or_one a with ha | ha <;>
    rcases Nat.mod_two_eq_zero_or_one b with hb | hb
  · simp [ha, hb]
  · simp only [ha, hb]
    norm_num
    rw [Nat.xor_assoc]
  · simp only [ha, hb]
    norm_num
    rw [Nat.xor_assoc, Nat.xor_comm (b >>> 1) CRC_POLY, ← Nat.xor_assoc]
  · simp only [ha, hb]
    norm_num
    rw [Nat.xor_assoc, Nat.xor_comm (b >>> 1) CRC_POLY, ← Nat.xor_assoc _ CRC_POLY,
      ← Nat.xor_assoc, Nat.xor_assoc _ CRC_POLY CRC_POLY, Nat.xor_self, Nat.xor_zero]

theorem bitStep8_xor (a b : Nat) : bitStep8 (a ^^^ b) = bitStep8 a ^^^ bitStep8 b := by
  simp [bitStep8, bitStep_xor]

theorem byteStep_xor (s1 b1 s2 b2 : Nat) :
    byteStep (s1 ^^^ s2) (b1 ^^^ b2) = byteStep s1 b1 ^^^ byteStep s2 b2 := by
  unfold byteStep
  rw [← bitStep8_xor]
  congr 1
  rw [Nat.xor_assoc, Nat.xor_assoc]
  congr 1
  rw [← Nat.xor_assoc, Nat.xor_comm s2 b1, Nat.xor_assoc]

theorem bitStep_ne_zero {s : Nat} (h0 : s ≠ 0) (h32 : s < 2 ^ 32) : bitStep s ≠ 0 := by
  unfold bitStep
  rcases Nat.mod_two_eq_zero_or_one s with he | ho
  · simp only [he, Nat.shiftRight_one]
    norm_num
    omega
  · simp only [ho, Nat.shiftRight_one]
    norm_num [Nat.xor_ne_zero, CRC_POLY]
    intro heq
    have h32' : s < 4294967296 := by
      have he32 : (2 : Nat) ^ 32 = 4294967296 := by norm_num
      omega
    omega

theorem bitStep8_ne_zero {s : Nat} (h0 : s ≠ 0) (h32 : s < 2 ^ 32) : bitStep8 s ≠ 0 := by
  unfold bitStep8
  have h1 := bitStep_ne_zero h0 h32
  have h1' := bitStep_lt h32
  have h2 := bitStep_ne_zero h1 h1'
  have h2' := bitStep_lt h1'
  have h3 := bitStep_ne_zero h2 h2'
  have h3' := bitStep_lt h2'
  have h4 := bitStep_ne_zero h3 h3'
  have h4' := bitStep_lt h3'
  have h5 := bitStep_ne_zero h4 h4'
  have h5' := bitStep_lt h4'
  have h6 := bitStep_ne_zero h5 h5'
  have h6' := bitStep_lt h5'
  have h7 := bitStep_ne_zero h6 h6'
  have h7' := bitStep_lt h6'
  exact bitStep_ne_zero h7 h7'

theorem byteStep_state_ne {s1 s2 : Nat} (b : Nat) (hne : s1 ≠ s2)
    (h1 : s1 < 2 ^ 32) (h2 : s2 < 2 ^ 32) : byteStep s1 b ≠ byteStep s2 b := by
  intro he
  have hx : byteStep (s1 ^^^ s2) (b ^^^ b) = byteStep s1 b ^^^ byteStep s2 b :=
    byteStep_xor s1 b s2 b
  rw [he, Nat.xor_self, Nat.xor_self] at hx
  have hz : byteStep (s1 ^^^ s2) 0 = bitStep8 (s1 ^^^ s2) := by
    simp [byteStep]
  rw [hz] at hx
  exact bitStep8_ne_zero (Nat.xor_ne_zero.mpr hne) (xorLt32 h1 h2) hx

theorem crcUpdate_state_ne {s1 s2 : Nat} (l : List Nat) (hne : s1 ≠ s2)
    (h1 : s1 < 2 ^ 32) (h2 : s2 < 2 ^ 32) (hl : ∀ b ∈ l, b < 2 ^ 32) :
    crcUpdate s1 l ≠ crcUpdate s2 l := by
  induction l generalizing s1 s2 with
  | nil => simpa [crcUpdate] using hne
  | cons b l ih =>
    have hb : b < 2 ^ 32 := hl b (by simp)
    have e1 : crcUpdate s1 (b :: l) = crcUpdate (byteStep s1 b) l := rfl
    have e2 : crcUpdate s2 (b :: l) = crcUpdate (byteStep s2 b) l := rfl
    rw [e1, e2]
    exact ih (byteStep_state_ne b hne h1 h2) (byteStep_lt h1 hb) (byteStep_lt h2 hb)
      (fun x hx => hl x (by simp [hx]))

theorem crcFields_state_ne {s1 s2 : Nat} (fs : List PayloadField) (hne : s1 ≠ s2)
    (h1 : s1 < 2 ^ 32) (h2 : s2 < 2 ^ 32)
    (hl : ∀ f ∈ fs, ∀ b ∈ f.field_data, b < 2 ^ 32) :
    crcFields s1 fs ≠ crcFields s2 fs := by
  induction fs generalizing s1 s2 with
  | nil => simpa [crcFields] using hne
  | cons f fs ih =>
    have hf : ∀ b ∈ f.field_data, b < 2 ^ 32 := hl f (by simp)
    have e1 : crcFields s1 (f :: fs) = crcFields (crcUpdate s1 f.field_data) fs := rfl
    have e2 : crcFields s2 (f :: fs) = crcFields (crcUpdate s2 f.field_data) fs := rfl
    rw [e1, e2]
    exact ih (crcUpdate_state_ne f.field_data hne h1 h2 hf)
      (crcUpdate_lt h1 hf) (crcUpdate_lt h2 hf) (fun g hg => hl g (by simp [hg]))

theorem byteStep_flip_ne {s y : Nat} (bit : Nat) (hbit : bit < 8) :
    byteStep s (y ^^^ 2 ^ bit) ≠ byteStep s y := by
  intro he
  have hx : byteStep (s ^^^ s) ((y ^^^ 2 ^ bit) ^^^ y)
      = byteStep s (y ^^^ 2 ^ bit) ^^^ byteStep s y := byteStep_xor s (y ^^^ 2 ^ bit) s y
  rw [he, Nat.xor_self, Nat.xor_self, Nat.xor_comm y (2 ^ bit), Nat.xor_cancel_right] at hx
  have hz : byteStep 0 (2 ^ bit) = bitStep8 (2 ^ bit) := by
    simp [byteStep]
  rw [hz] at hx
  have hb0 : (2 : Nat) ^ bit ≠ 0 := (Nat.two_pow_pos bit).ne'
  have hb32 : (2 : Nat) ^ bit < 2 ^ 32 := by
    calc (2 : Nat) ^ bit ≤ 2 ^ 7 := Nat.pow_le_pow_right (by norm_num) (by omega)
      _ < 2 ^ 32 := by norm_num
  exact bitStep8_ne_zero hb0 hb32 hx

/-! ### The tampered frame of claim C7 -/

/-- Flip bit `bit` of the byte `x`. -/
def flipByte (x bit : Nat) : Nat := x ^^^ 2 ^ bit

/-- Flip bit `bit` of byte `p` of a byte string (total; meaningful when
`p` is in range). -/
def flipDataAt (data : List Nat) (p bit : Nat) : List Nat :=
  data.take p ++ flipByte (data.getD p 0) bit :: data.drop (p + 1)

/-- Flip bit `bit` of byte `p` of field `j`'s data, leaving the stored
`field_length` — hence the wire's length prefix — and every other byte of the
frame unchanged. -/
def flipFieldAt (fs : List PayloadField) (j p bit : Nat) : List PayloadField :=
  fs.take j
    ++ { field_length := (fs.getD j ⟨0, []⟩).field_length,
         field_data := flipDataAt (fs.getD j ⟨0, []⟩).field_data p bit }
      :: fs.drop (j + 1)

theorem flipDataAt_length (data : List Nat) (p bit : Nat) (hp : p < data.length) :
    (flipDataAt data p bit).length = data.length := by
  simp only [flipDataAt, List.length_append, List.length_cons, List.length_take,
    List.length_drop]
  omega

theorem flipFieldAt_length (fs : List PayloadField) (j p bit : Nat) (hj : j < fs.length) :
    (flipFieldAt fs j p bit).length = fs.length := by
  simp only [flipFieldAt, List.length_append, List.length_cons, List.length_take,
    List.length_drop]
  omega

theorem crcUpdate_flip_ne {s : Nat} (data : List Nat) (p bit : Nat)
    (hs : s < 2 ^ 32) (hp : p < data.length) (hbit : bit < 8)
    (hdata : ∀ b ∈ data, b < 2 ^ 32) :
    crcUpdate s (flipDataAt data p bit) ≠ crcUpdate s data := by
  have hdecomp : data = data.take p ++ data[p] :: data.drop (p + 1) := by
    conv_lhs => rw [← List.take_append_drop p data]
    rw [List.drop_eq_getElem_cons hp]
  have hget : data.getD p 0 = data[p] := List.getD_eq_getElem data 0 hp
  have htake : (data.take p).length = p := by
    simp [List.length_take]
    omega
  have e1 : crcUpdate s (flipDataAt data p bit)
      = crcUpdate (byteStep (crcUpdate s (data.take p)) (flipByte data[p] bit))
          (data.drop (p + 1)) := by
    simp only [flipDataAt, hget, crcUpdate, List.foldl_append, List.foldl_cons]
  have e2 : crcUpdate s data
      = crcUpdate (byteStep (crcUpdate s (data.take p)) data[p]) (data.drop (p + 1)) := by
    conv_lhs => rw [hdecomp]
    simp only [crcUpdate, List.foldl_append, List.foldl_cons]
  rw [e1, e2]
  have hpre : ∀ b ∈ data.take p, b < 2 ^ 32 := fun b hb => hdata b (List.mem_of_mem_take hb)
  have hpost : ∀ b ∈ data.drop (p + 1), b < 2 ^ 32 := fun b hb =>
    hdata b (List.mem_of_mem_drop hb)
  have hU : crcUpdate s (data.take p) < 2 ^ 32 := crcUpdate_lt hs hpre
  have hbyte : data[p] < 2 ^ 32 := hdata _ (List.getElem_mem hp)
  have hflip : flipByte data[p] bit < 2 ^ 32 := by
    have hb32 : (2 : Nat) ^ bit < 2 ^ 32 := by
      calc (2 : Nat) ^ bit ≤ 2 ^ 7 := Nat.pow_le_pow_right (by norm_num) (by omega)
        _ < 2 ^ 32 := by norm_num
    exact xorLt32 hbyte hb32
  exact crcUpdate_state_ne (data.drop (p + 1))
    (byteStep_flip_ne bit hbit) (byteStep_lt hU hflip) (byteStep_lt hU hbyte) hpost

theorem checksum_flip_ne (fs : List PayloadField) (j p bit : Nat)
    (hj : j < fs.length) (hp : p < (fs.getD j ⟨0, []⟩).field_data.length) (hbit : bit < 8)
    (hbytes : ∀ f ∈ fs, ∀ b ∈ f.field_data, b < 2 ^ 32) :
    Payload.checksum ⟨fs.length, flipFieldAt fs j p bit⟩ ≠ Payload.checksum ⟨fs.length, fs⟩ := by
  have hget : fs.getD j ⟨0, []⟩ = fs[j] := List.getD_eq_getElem fs ⟨0, []⟩ hj
  have hdecomp : fs = fs.take j ++ fs[j] :: fs.drop (j + 1) := by
    conv_lhs => rw [← List.take_append_drop j fs]
    rw [List.drop_eq_getElem_cons hj]
  have hjb : ∀ b ∈ fs[j].field_data, b < 2 ^ 32 := hbytes _ (List.getElem_mem hj)
  have hpre : ∀ f ∈ fs.take j, ∀ b ∈ f.field_data, b < 2 ^ 32 := fun f hf =>
    hbytes f (List.mem_of_mem_take hf)
  have hpost : ∀ f ∈ fs.drop (j + 1), ∀ b ∈ f.field_data, b < 2 ^ 32 := fun f hf =>
    hbytes f (List.mem_of_mem_drop hf)
  have hS : crcFields 0xFFFFFFFF (fs.take j) < 2 ^ 32 := crcFields_lt (by norm_num) hpre
  have e1 : crcFields 0xFFFFFFFF (flipFieldAt fs j p bit)
      = crcFields (crcUpdate (crcFields 0xFFFFFFFF (fs.take j))
          (flipDataAt fs[j].field_data p bit)) (fs.drop (j + 1)) := by
    simp only [flipFieldAt, hget, crcFields, List.foldl_append, List.foldl_cons]
  have e2 : crcFields 0xFFFFFFFF fs
      = crcFields (crcUpdate (crcFields 0xFFFFFFFF (fs.take j))
          fs[j].field_data) (fs.drop (j + 1)) := by
    conv_lhs => rw [hdecomp]
    simp only [crcFields, List.foldl_append, List.foldl_cons]
  have hp' : p < fs[j].field_data.length := by
    rw [hget] at hp
    exact hp
  have hcore : crcFields 0xFFFFFFFF (flipFieldAt fs j p bit) ≠ crcFields 0xFFFFFFFF fs := by
    rw [e1, e2]
    exact crcFields_state_ne (fs.drop (j + 1))
      (crcUpdate_flip_ne fs[j].field_data p bit hS hp' hbit hjb)
      (crcUpdate_lt hS (by
        intro b hb
        have hl := flipDataAt_length fs[j].field_data p bit hp'
        simp only [flipDataAt] at hb
        rcases List.mem_append.mp hb with h1 | h1
        · exact hjb b (List.mem_of_mem_take h1)
        · rcases List.mem_cons.mp h1 with h2 | h2
          · subst h2
            have hb32 : (2 : Nat) ^ bit < 2 ^ 32 := by
              calc (2 : Nat) ^ bit ≤ 2 ^ 7 := Nat.pow_le_pow_right (by norm_num) (by omega)
                _ < 2 ^ 32 := by norm_num
            exact xorLt32 (hjb _ (by
              rw [List.getD_eq_getElem fs[j].field_data 0 hp']
              exact List.getElem_mem hp')) hb32
          · exact hjb b (List.mem_of_mem_drop h2)))
      (crcUpdate_lt hS hjb) hpost
  intro he
  apply hcore
  have he' : crcFields 0xFFFFFFFF (flipFieldAt fs j p bit) ^^^ 0xFFFFFFFF
      = crcFields 0xFFFFFFFF fs ^^^ 0xFFFFFFFF := he
  have := congrArg (fun z => z ^^^ 0xFFFFFFFF) he'
  simpa [Nat.xor_cancel_right] using this

/-! ### Claim C7: a single flipped field bit is always caught -/

/-- C7: take a well-formed encoded frame (core kind, `u32` widths respected,
stored checksum equal to the computed one) and flip any single bit (`bit < 8`)
of any byte (`p`) of any field (`j`)'s data in the encoded byte stream,
leaving the magic/version/kind bytes, the field count, every length prefix and
the 4-byte checksum trailer unchanged — which is exactly the stream encoding
`flipFieldAt m.payload.fields j p bit` with the original count and trailer.
`Message::receive` then fails with the checksum-mismatch error ("Invalid
checksum", spec §7's `ChecksumMismatch`): the checksum is recomputed over
exactly the received field bytes and CRC-32 maps byte strings differing in a
single bit to different values. -/
theorem c7_bit_flip_rejected (m : Message) (j p bit : Nat)
    (hmt : m.header.message_type.isCore = true)
    (hcount : m.payload.count = m.payload.fields.length)
    (hlenf : m.payload.fields.length < 2 ^ 32)
    (hfs : ∀ f ∈ m.payload.fields,
      f.field_length = f.field_data.length ∧ f.field_data.length < 2 ^ 32)
    (hbytes : ∀ f ∈ m.payload.fields, ∀ b ∈ f.field_data, b < 2 ^ 32)
    (hck : m.checksum = m.payload.checksum)
    (hj : j < m.payload.fields.length)
    (hp : p < ((m.payload.fields).getD j ⟨0, []⟩).field_data.length)
    (hbit : bit < 8) :
    Message.receive ([VERSION, m.header.message_type.toByte]
      ++ (be4 m.payload.count
      ++ (fieldsBytes (flipFieldAt m.payload.fields j p bit) ++ be4 m.checksum)))
      = .error "Invalid checksum" := by
  have hget : m.payload.fields.getD j ⟨0, []⟩ = m.payload.fields[j] :=
    List.getD_eq_getElem m.payload.fields ⟨0, []⟩ hj
  have hp' : p < m.payload.fields[j].field_data.length := by
    rw [hget] at hp
    exact hp
  have hlenflip : (flipFieldAt m.payload.fields j p bit).length = m.payload.fields.length :=
    flipFieldAt_length m.payload.fields j p bit hj
  have hfs' : ∀ f ∈ flipFieldAt m.payload.fields j p bit,
      f.field_length = f.field_data.length ∧ f.field_data.length < 2 ^ 32 := by
    intro f hf
    simp only [flipFieldAt, hget] at hf
    rcases List.mem_append.mp hf with h1 | h1
    · exact hfs f (List.mem_of_mem_take h1)
    · rcases List.mem_cons.mp h1 with h2 | h2
      · subst h2
        obtain ⟨hl, hlt⟩ := hfs m.payload.fields[j] (List.getElem_mem hj)
        constructor
        · simp only [hget]
          rw [flipDataAt_length m.payload.fields[j].field_data p bit hp', hl]
        · simp only [hget]
          rw [flipDataAt_length m.payload.fields[j].field_data p bit hp']
          exact hlt
      · exact hfs f (List.mem_of_mem_drop h2)
  have hcklt : m.checksum < 2 ^ 32 := by
    rw [hck]
    exact checksum_lt m.payload hbytes
  have hstream : [VERSION, m.header.message_type.toByte]
      ++ (be4 m.payload.count
      ++ (fieldsBytes (flipFieldAt m.payload.fields j p bit) ++ be4 m.checksum))
      = [VERSION, m.header.message_type.toByte]
      ++ (be4 (flipFieldAt m.payload.fields j p bit).length
      ++ (fieldsBytes (flipFieldAt m.payload.fields j p bit) ++ be4 m.checksum)) := by
    rw [hcount, hlenflip]
  rw [hstream, receive_encoded m.header.message_type hmt
    (flipFieldAt m.payload.fields j p bit) m.checksum (by rw [hlenflip]; exact hlenf)
    hcklt hfs']
  have hflip := checksum_flip_ne m.payload.fields j p bit hj hp hbit hbytes
  have hne : ¬ m.checksum = Payload.checksum ⟨(flipFieldAt m.payload.fields j p bit).length,
      flipFieldAt m.payload.fields j p bit⟩ := by
    intro he
    apply hflip
    calc Payload.checksum ⟨m.payload.fields.length, flipFieldAt m.payload.fields j p bit⟩
        = Payload.checksum ⟨(flipFieldAt m.payload.fields j p bit).length,
            flipFieldAt m.payload.fields j p bit⟩ := rfl
      _ = m.checksum := he.symm
      _ = Payload.checksum ⟨m.payload.fields.length, m.payload.fields⟩ := hck
  rw [if_neg hne]

/-- C7 witness: flipping bit 0 of byte 0 of field 0 of the encoded
`Message::auth([97], [98])` frame is rejected with the checksum error. -/
theorem c7_witness :
    ((Message.auth [97] [98]).header.message_type.isCore = true
  ∧ (Message.auth [97] [98]).payload.count = (Message.auth [97] [98]).payload.fields.length
  ∧ (Message.auth [97] [98]).payload.fields.length < 2 ^ 32
  ∧ (∀ f ∈ (Message.auth [97] [98]).payload.fields,
      f.field_length = f.field_data.length ∧ f.field_data.length < 2 ^ 32)
  ∧ (∀ f ∈ (Message.auth [97] [98]).payload.fields, ∀ b ∈ f.field_data, b < 2 ^ 32)
  ∧ (Message.auth [97] [98]).checksum = (Message.auth [97] [98]).payload.checksum
  ∧ 0 < (Message.auth [97] [98]).payload.fields.length
  ∧ 0 < (((Message.auth [97] [98]).payload.fields).getD 0 ⟨0, []⟩).field_data.length
  ∧ 0 < 8)
  ∧ Message.receive ([VERSION, (Message.auth [97] [98]).header.message_type.toByte]
      ++ (be4 (Message.auth [97] [98]).payload.count
      ++ (fieldsBytes (flipFieldAt (Message.auth [97] [98]).payload.fields 0 0 0)
          ++ be4 (Message.auth [97] [98]).checksum)))
      = .error "Invalid checksum" :=
  ⟨⟨rfl, rfl, by decide, by decide, by decide, rfl, by decide, by decide, by decide⟩,
    c7_bit_flip_rejected (Message.auth [97] [98]) 0 0 0 rfl rfl (by decide) (by decide)
      (by decide) rfl (by decide) (by decide) (by decide)⟩

/-! ### More association-list lemmas (for the C5 invariant) -/

section AssocLemmas2

variable {κ α : Type} [DecidableEq κ]

theorem mem_of_lookupA_eq_some {l : List (κ × α)} {k : κ} {v : α}
    (h : lookupA k l = some v) : (k, v) ∈ l := by
  induction l with
  | nil => simp [lookupA] at h
  | cons p l ih =>
    obtain ⟨k', v'⟩ := p
    by_cases hk : k' = k
    · simp [lookupA, hk] at h
      simp [hk, h]
    · simp only [lookupA, hk, if_false] at h
      simp [ih h]

theorem lookupA_eq_some_of_mem {l : List (κ × α)} {k : κ} {v : α}
    (hnd : (l.map Prod.fst).Nodup) (hm : (k, v) ∈ l) : lookupA k l = some v := by
  induction l with
  | nil => simp at hm
  | cons p l ih =>
    obtain ⟨k', v'⟩ := p
    simp only [List.map_cons, List.nodup_cons] at hnd
    rcases List.mem_cons.mp hm with he | hm'
    · obtain ⟨h1, h2⟩ := Prod.mk.injEq .. ▸ he.symm
      simp [lookupA, h1, h2]
    · have hk : k' ≠ k := by
        intro hkk
        subst hkk
        exact hnd.1 (List.mem_map_of_mem Prod.fst hm')
      simp only [lookupA, hk, if_false]
      exact ih hnd.2 hm'

theorem lookupA_eq_none_iff {l : List (κ × α)} {k : κ} :
    lookupA k l = none ↔ k ∉ l.map Prod.fst := by
  induction l with
  | nil => simp [lookupA]
  | cons p l ih =>
    obtain ⟨k', v'⟩ := p
    by_cases hk : k' = k
    · simp [lookupA, hk]
    · simp [lookupA, hk, ih, Ne.symm hk]

theorem mem_insertA {l : List (κ × α)} {k : κ} {v : α} {p : κ × α}
    (h : p ∈ insertA k v l) : p = (k, v) ∨ p ∈ l := by
  induction l with
  | nil => simpa [insertA] using h
  | cons q l ih =>
    by_cases hq : q.1 = k
    · simp only [insertA, hq, if_true, List.mem_cons] at h
      rcases h with h | h
      · exact Or.inl h
      · exact Or.inr (by simp [h])
    · simp only [insertA, hq, if_false, List.mem_cons] at h
      rcases h with h | h
      · exact Or.inr (by simp [h])
      · rcases ih h with h' | h'
        · exact Or.inl h'
        · exact Or.inr (by simp [h'])

theorem keys_insertA {l : List (κ × α)} {k a : κ} {v : α} :
    a ∈ (insertA k v l).map Prod.fst ↔ a = k ∨ a ∈ l.map Prod.fst := by
  induction l with
  | nil => simp [insertA]
  | cons q l ih =>
    by_cases hq : q.1 = k
    · simp [insertA, hq]
    · simp [insertA, hq, ih]
      tauto

theorem keys_nodup_insertA {l : List (κ × α)} {k : κ} {v : α}
    (h : (l.map Prod.fst).Nodup) : ((insertA k v l).map Prod.fst).Nodup := by
  induction l with
  | nil => simp [insertA]
  | cons q l ih =>
    simp only [List.map_cons, List.nodup_cons] at h
    by_cases hq : q.1 = k
    · simp only [insertA, hq, if_true, List.map_cons, List.nodup_cons]
      exact ⟨hq ▸ h.1, h.2⟩
    · simp only [insertA, hq, if_false, List.map_cons, List.nodup_cons]
      refine ⟨?_, ih h.2⟩
      intro hmem
      rcases keys_insertA.mp hmem with he | he
      · exact hq he
      · exact h.1 he

theorem keys_updateA (k : κ) (f : α → α) (l : List (κ × α)) :
    (updateA k f l).map Prod.fst = l.map Prod.fst := by
  induction l with
  | nil => rfl
  | cons q l ih =>
    by_cases hq : q.1 = k <;> simp [updateA, hq, ih]

theorem mem_updateA {l : List (κ × α)} {k : κ} {f : α → α} {p : κ × α}
    (h : p ∈ updateA k f l) : p ∈ l ∨ ∃ v, (k, v) ∈ l ∧ p = (k, f v) := by
  induction l with
  | nil => simp [updateA] at h
  | cons q l ih =>
    obtain ⟨k', v'⟩ := q
    by_cases hq : k' = k
    · subst hq
      simp only [updateA, if_true, List.mem_cons] at h
      rcases h with h | h
      · exact Or.inr ⟨v', by simp, h⟩
      · exact Or.inl (by simp [h])
    · simp only [updateA, hq, if_false, List.mem_cons] at h
      rcases h with h | h
      · exact Or.inl (by simp [h])
      · rcases ih h with h' | ⟨v, hv, he⟩
        · exact Or.inl (by simp [h'])
        · exact Or.inr ⟨v, by simp [hv], he⟩

theorem updateA_updateA (k : κ) (f g : α → α) (l : List (κ × α)) :
    updateA k f (updateA k g l) = updateA k (fun x => f (g x)) l := by
  induction l with
  | nil => rfl
  | cons q l ih =>
    by_cases hq : q.1 = k <;> simp [updateA, hq, ih]

theorem mem_of_mem_removeA {l : List (κ × α)} {k : κ} {p : κ × α}
    (h : p ∈ removeA k l) : p ∈ l := by
  induction l with
  | nil => simp [removeA] at h
  | cons q l ih =>
    by_cases hq : q.1 = k
    · simp only [removeA, hq, if_true] at h
      simp [h]
    · simp only [removeA, hq, if_false, List.mem_cons] at h
      rcases h with h | h
      · simp [h]
      · simp [ih h]

theorem keys_removeA_sublist (k : κ) (l : List (κ × α)) :
    ((removeA k l).map Prod.fst).Sublist (l.map Prod.fst) := by
  induction l with
  | nil => simp [removeA]
  | cons q l ih =>
    by_cases hq : q.1 = k
    · simp only [removeA, hq, if_true, List.map_cons]
      exact (List.sublist_cons_self _ _)
    · simp only [removeA, hq, if_false, List.map_cons]
      exact ih.cons₂ _

theorem keys_nodup_removeA (k : κ) (l : List (κ × α))
    (h : (l.map Prod.fst).Nodup) : ((removeA k l).map Prod.fst).Nodup :=
  (keys_removeA_sublist k l).nodup h

theorem lookupA_removeA_self (k : κ) (l : List (κ × α))
    (hnd : (l.map Prod.fst).Nodup) : lookupA k (removeA k l) = none := by
  induction l with
  | nil => rfl
  | cons q l ih =>
    obtain ⟨k', v'⟩ := q
    simp only [List.map_cons, List.nodup_cons] at hnd
    by_cases hq : k' = k
    · simp only [removeA, hq, if_true]
      rw [lookupA_eq_none_iff]
      exact hq ▸ hnd.1
    · simp only [removeA, hq, if_false, lookupA]
      exact ih hnd.2

end AssocLemmas2

theorem filter_eq_single {β : Type} (p : β → Bool) (l : List β) (x : β)
    (hnd : l.Nodup) (hx : x ∈ l) (hiff : ∀ y ∈ l, p y = true ↔ y = x) :
    l.filter p = [x] := by
  induction l with
  | nil => simp at hx
  | cons a l ih =>
    simp only [List.nodup_cons] at hnd
    rcases List.mem_cons.mp hx with he | hm
    · subst he
      have hpa : p x = true := (hiff x (by simp)).mpr rfl
      have hnil : l.filter p = [] := by
        rw [List.filter_eq_nil_iff]
        intro b hb hpb
        have hbx : b = x := (hiff b (by simp [hb])).mp (by simpa using hpb)
        exact hnd.1 (hbx ▸ hb)
      simp [List.filter_cons, hpa, hnil]
    · have hpa : p a = false := by
        by_contra hcon
        have hpa' : p a = true := by
          cases hpav : p a
          · exact absurd hpav hcon
          · rfl
        have : a = x := (hiff a (by simp)).mp hpa'
        exact hnd.1 (this ▸ hm)
      simp only [List.filter_cons, hpa, if_false, Bool.false_eq_true]
      exact ih hnd.2 hm (fun y hy => hiff y (by simp [hy]))

/-! ### The C5 directory invariant -/

/-- Both maps of the directory have no duplicate keys (spec §3: usernames
unique, session ids unique; `HashMap` guarantees this). -/
def NodupKeys (st : SharedState) : Prop :=
  (st.users.map Prod.fst).Nodup ∧ (st.sessions.map Prod.fst).Nodup

/-- Every session still in the directory is live: `close_session` removes what
it closes. -/
def NoClosed (st : SharedState) : Prop :=
  ∀ id sess, lookupA id st.sessions = some sess → sess.closed = false

/-- A session bound to a user implies that user's record points back at it. -/
def BoundForward (st : SharedState) : Prop :=
  ∀ id sess, lookupA id st.sessions = some sess →
    ∀ name, sess.user = some name →
      ∃ u, lookupA name st.users = some u ∧ u.session_id = some id

/-- A user's bound-session pointer names an existing session bound to it. -/
def BoundBack (st : SharedState) : Prop :=
  ∀ name u, lookupA name st.users = some u →
    ∀ id, u.session_id = some id →
      ∃ sess, lookupA id st.sessions = some sess ∧ sess.user = some name

def DirInv (st : SharedState) : Prop :=
  NodupKeys st ∧ NoClosed st ∧ BoundForward st ∧ BoundBack st

theorem dirInv_init : DirInv SharedState.new := by
  refine ⟨⟨by simp [SharedState.new], by simp [SharedState.new]⟩, ?_, ?_, ?_⟩
  · intro id sess h
    simp [SharedState.new, lookupA] at h
  · intro id sess h
    simp [SharedState.new, lookupA] at h
  · intro name u h id hid
    simp only [SharedState.new, lookupA] at h
    by_cases hn : strBytes ("luffy") = name
    · simp only [hn, if_true, Option.some.injEq] at h
      rw [← h] at hid
      simp [User.new, User.set_access_level] at hid
    · simp [hn, lookupA] at h

theorem dirInv_add_user {st : SharedState} {name : List Nat} {user : User}
    (hinv : DirInv st) (hfresh : lookupA name st.users = none)
    (husr : user.session_id = none) :
    DirInv (st.add_user name user) := by
  obtain ⟨⟨hndU, hndS⟩, hA, hB, hC⟩ := hinv
  have husers : (st.add_user name user).users = insertA name user st.users := rfl
  have hsess : (st.add_user name user).sessions = st.sessions := rfl
  refine ⟨⟨by rw [husers]; exact keys_nodup_insertA hndU, by rw [hsess]; exact hndS⟩, ?_, ?_, ?_⟩
  · intro id sess h
    rw [hsess] at h
    exact hA id sess h
  · intro id sess h nm hnm
    rw [hsess] at h
    obtain ⟨u, hu, hsid⟩ := hB id sess h nm hnm
    have hne : nm ≠ name := by
      intro he
      rw [he, hfresh] at hu
      exact Option.noConfusion hu
    refine ⟨u, ?_, hsid⟩
    rw [husers, lookupA_insertA_ne _ _ _ _ hne]
    exact hu
  · intro nm u h id hid
    rw [husers] at h
    by_cases hne : nm = name
    · subst hne
      rw [lookupA_insertA_self] at h
      obtain rfl : user = u := Option.some.inj h
      rw [husr] at hid
      exact Option.noConfusion hid
    · rw [lookupA_insertA_ne _ _ _ _ hne] at h
      obtain ⟨sess, hs, hsu⟩ := hC nm u h id hid
      exact ⟨sess, by rw [hsess]; exact hs, hsu⟩

theorem dirInv_add_session {st : SharedState} {id : Nat} {session : Session}
    (hinv : DirInv st) (hfresh : lookupA id st.sessions = none)
    (huser : session.user = none) (hclosed : session.closed = false) :
    DirInv (st.add_session id session) := by
  obtain ⟨⟨hndU, hndS⟩, hA, hB, hC⟩ := hinv
  have husers : (st.add_session id session).users = st.users := rfl
  have hsess : (st.add_session id session).sessions = insertA id session st.sessions := rfl
  refine ⟨⟨hndU, by rw [hsess]; exact keys_nodup_insertA hndS⟩, ?_, ?_, ?_⟩
  · intro id2 sess h
    rw [hsess] at h
    by_cases hne : id2 = id
    · subst hne
      rw [lookupA_insertA_self] at h
      obtain rfl : session = sess := Option.some.inj h
      exact hclosed
    · rw [lookupA_insertA_ne _ _ _ _ hne] at h
      exact hA id2 sess h
  · intro id2 sess h nm hnm
    rw [hsess] at h
    by_cases hne : id2 = id
    · subst hne
      rw [lookupA_insertA_self] at h
      obtain rfl : session = sess := Option.some.inj h
      rw [huser] at hnm
      exact Option.noConfusion hnm
    · rw [lookupA_insertA_ne _ _ _ _ hne] at h
      obtain ⟨u, hu, hsid⟩ := hB id2 sess h nm hnm
      exact ⟨u, by rw [husers]; exact hu, hsid⟩
  · intro nm u h id2 hid2
    rw [husers] at h
    obtain ⟨sess, hs, hsu⟩ := hC nm u h id2 hid2
    have hne : id2 ≠ id := by
      intro he
      rw [he, hfresh] at hs
      exact Option.noConfusion hs
    refine ⟨sess, ?_, hsu⟩
    rw [hsess, lookupA_insertA_ne _ _ _ _ hne]
    exact hs

theorem authenticate_eq (st : SharedState) (id : Nat) (name : List Nat) (sess : Session)
    (user : User) (hs : lookupA id st.sessions = some sess)
    (hu : lookupA name st.users = some user) :
    st.authenticate id name =
      { users := updateA name (fun w => w.set_session_id id) st.users,
        sessions := updateA id
          (fun s => (s.set_access_level (user.set_session_id id).access_level).set_user name)
          st.sessions } := by
  unfold SharedState.authenticate SharedState.sync_access_level
  simp only [hs, hu, lookupA_updateA_self, Option.map_some']
  rw [updateA_updateA]

theorem dirInv_authenticate {st : SharedState} {sid : Nat} {name : List Nat}
    {sess : Session} {user : User}
    (hinv : DirInv st)
    (hs : lookupA sid st.sessions = some sess) (hsu : sess.user = none)
    (hu : lookupA name st.users = some user) (husid : user.session_id = none) :
    DirInv (st.authenticate sid name) := by
  obtain ⟨⟨hndU, hndS⟩, hA, hB, hC⟩ := hinv
  rw [authenticate_eq st sid name sess user hs hu]
  refine ⟨⟨by rw [keys_updateA]; exact hndU, by rw [keys_updateA]; exact hndS⟩, ?_, ?_, ?_⟩
  · intro id2 sess2 h
    simp only at h
    by_cases hne : id2 = sid
    · rw [hne, lookupA_updateA_self, hs, Option.map_some'] at h
      obtain rfl := Option.some.inj h
      simpa [Session.set_user, Session.set_access_level] using hA sid sess hs
    · rw [lookupA_updateA_ne _ _ _ _ hne] at h
      exact hA id2 sess2 h
  · intro id2 sess2 h nm hnm
    simp only at h ⊢
    by_cases hne : id2 = sid
    · rw [hne] at h ⊢
      rw [lookupA_updateA_self, hs, Option.map_some'] at h
      obtain rfl := Option.some.inj h
      simp only [Session.set_user, Option.some.injEq] at hnm
      rw [← hnm]
      refine ⟨user.set_session_id sid, ?_, by simp [User.set_session_id]⟩
      rw [lookupA_updateA_self, hu, Option.map_some']
    · rw [lookupA_updateA_ne _ _ _ _ hne] at h
      obtain ⟨u2, hu2, hsid2⟩ := hB id2 sess2 h nm hnm
      by_cases hnm2 : nm = name
      · rw [hnm2, hu] at hu2
        obtain rfl := Option.some.inj hu2
        rw [husid] at hsid2
        exact Option.noConfusion hsid2
      · refine ⟨u2, ?_, hsid2⟩
        rw [lookupA_updateA_ne _ _ _ _ hnm2]
        exact hu2
  · intro nm u h id2 hid2
    simp only at h ⊢
    by_cases hnm : nm = name
    · rw [hnm] at h ⊢
      rw [lookupA_updateA_self, hu, Option.map_some'] at h
      obtain rfl := Option.some.inj h
      simp only [User.set_session_id, Option.some.injEq] at hid2
      rw [← hid2]
      refine ⟨(sess.set_access_level (user.set_session_id sid).access_level).set_user name,
        ?_, by simp [Session.set_user]⟩
      rw [lookupA_updateA_self, hs, Option.map_some']
    · rw [lookupA_updateA_ne _ _ _ _ hnm] at h
      obtain ⟨sess2, hs2, hsu2⟩ := hC nm u h id2 hid2
      by_cases hne : id2 = sid
      · rw [hne, hs] at hs2
        obtain rfl := Option.some.inj hs2
        rw [hsu] at hsu2
        exact Option.noConfusion hsu2
      · refine ⟨sess2, ?_, hsu2⟩
        rw [lookupA_updateA_ne _ _ _ _ hne]
        exact hs2

theorem dirInv_remove_session {st st' : SharedState} {id : Nat}
    (hndU : (st.users.map Prod.fst).Nodup) (hndS : (st.sessions.map Prod.fst).Nodup)
    (hB : BoundForward st) (hC : BoundBack st)
    (hrm : st.remove_session id = some st') :
    (st'.users.map Prod.fst).Nodup ∧ (st'.sessions.map Prod.fst).Nodup
  ∧ BoundForward st' ∧ BoundBack st'
  ∧ (∀ id2 sess2, lookupA id2 st'.sessions = some sess2 → lookupA id2 st.sessions = some sess2)
  ∧ lookupA id st'.sessions = none := by
  unfold SharedState.remove_session at hrm
  cases hsid : lookupA id st.sessions with
  | none =>
    simp only [hsid] at hrm
    obtain rfl := Option.some.inj hrm
    exact ⟨hndU, hndS, hB, hC, fun _ _ h => h, hsid⟩
  | some session =>
    simp only [hsid] at hrm
    have hlift : ∀ id2 sess2, lookupA id2 (removeA id st.sessions) = some sess2 →
        id2 ≠ id ∧ lookupA id2 st.sessions = some sess2 := by
      intro id2 sess2 h
      have hne : id2 ≠ id := by
        intro he
        rw [he, lookupA_removeA_self _ _ hndS] at h
        exact Option.noConfusion h
      rw [lookupA_removeA_ne _ _ _ hne] at h
      exact ⟨hne, h⟩
    cases hsuser : session.user with
    | none =>
      simp only [hsuser] at hrm
      obtain rfl := Option.some.inj hrm
      refine ⟨hndU, keys_nodup_removeA _ _ hndS, ?_, ?_, ?_, ?_⟩
      · intro id2 sess2 h nm hnm
        exact hB id2 sess2 (hlift id2 sess2 h).2 nm hnm
      · intro nm u h id2 hid2
        obtain ⟨sess2, hs2, hsu2⟩ := hC nm u h id2 hid2
        have hne : id2 ≠ id := by
          intro he
          rw [he, hsid] at hs2
          obtain rfl := Option.some.inj hs2
          rw [hsuser] at hsu2
          exact Option.noConfusion hsu2
        refine ⟨sess2, ?_, hsu2⟩
        show lookupA id2 (removeA id st.sessions) = some sess2
        rw [lookupA_removeA_ne _ _ _ hne]
        exact hs2
      · intro id2 sess2 h
        exact (hlift id2 sess2 h).2
      · exact lookupA_removeA_self _ _ hndS
    | some nm0 =>
      simp only [hsuser] at hrm
      cases hu0 : lookupA nm0 st.users with
      | none =>
        simp only [hu0] at hrm
        exact Option.noConfusion hrm
      | some u0 =>
        simp only [hu0] at hrm
        obtain rfl := Option.some.inj hrm
        obtain ⟨u0', hu0', hsid0⟩ := hB id session hsid nm0 hsuser
        rw [hu0] at hu0'
        obtain rfl := Option.some.inj hu0'
        refine ⟨by rw [keys_updateA]; exact hndU, keys_nodup_removeA _ _ hndS, ?_, ?_, ?_, ?_⟩
        · intro id2 sess2 h nm hnm
          obtain ⟨hne, h'⟩ := hlift id2 sess2 h
          obtain ⟨u2, hu2, hsid2⟩ := hB id2 sess2 h' nm hnm
          by_cases hnm2 : nm = nm0
          · rw [hnm2, hu0] at hu2
            obtain rfl := Option.some.inj hu2
            rw [hsid0] at hsid2
            obtain heq := Option.some.inj hsid2
            exact absurd heq.symm hne
          · refine ⟨u2, ?_, hsid2⟩
            show lookupA nm (updateA nm0 User.remove_session_id st.users) = some u2
            rw [lookupA_updateA_ne _ _ _ _ hnm2]
            exact hu2
        · intro nm u h id2 hid2
          dsimp only at h
          by_cases hnm2 : nm = nm0
          · rw [hnm2, lookupA_updateA_self, hu0, Option.map_some'] at h
            obtain rfl := Option.some.inj h
            simp [User.remove_session_id] at hid2
          · rw [lookupA_updateA_ne _ _ _ _ hnm2] at h
            obtain ⟨sess2, hs2, hsu2⟩ := hC nm u h id2 hid2
            have hne : id2 ≠ id := by
              intro he
              rw [he, hsid] at hs2
              obtain rfl := Option.some.inj hs2
              rw [hsuser] at hsu2
              obtain heq := Option.some.inj hsu2
              exact hnm2 heq.symm
            refine ⟨sess2, ?_, hsu2⟩
            show lookupA id2 (removeA id st.sessions) = some sess2
            rw [lookupA_removeA_ne _ _ _ hne]
            exact hs2
        · intro id2 sess2 h
          exact (hlift id2 sess2 h).2
        · exact lookupA_removeA_self _ _ hndS

theorem dirInv_close_session {st st' : SharedState} {id : Nat}
    (hinv : DirInv st) (hcl : st.close_session id = some st') : DirInv st' := by
  obtain ⟨⟨hndU, hndS⟩, hA, hB, hC⟩ := hinv
  unfold SharedState.close_session at hcl
  cases hsid : lookupA id st.sessions with
  | none =>
    simp only [hsid] at hcl
    obtain rfl := Option.some.inj hcl
    exact ⟨⟨hndU, hndS⟩, hA, hB, hC⟩
  | some session =>
    simp only [hsid] at hcl
    have hndSmid : ((updateA id Session.close st.sessions).map Prod.fst).Nodup := by
      rw [keys_updateA]
      exact hndS
    have hBmid : BoundForward
        { st with sessions := updateA id Session.close st.sessions } := by
      intro id2 sess2 h nm hnm
      dsimp only at h ⊢
      by_cases hne : id2 = id
      · rw [hne, lookupA_updateA_self, hsid, Option.map_some'] at h
        obtain rfl := Option.some.inj h
        simp only [Session.close] at hnm
        rw [hne]
        exact hB id session hsid nm hnm
      · rw [lookupA_updateA_ne _ _ _ _ hne] at h
        exact hB id2 sess2 h nm hnm
    have hCmid : BoundBack
        { st with sessions := updateA id Session.close st.sessions } := by
      intro nm u h id2 hid2
      dsimp only at h ⊢
      obtain ⟨sess2, hs2, hsu2⟩ := hC nm u h id2 hid2
      by_cases hne : id2 = id
      · rw [hne] at hs2 ⊢
        rw [hsid] at hs2
        obtain rfl := Option.some.inj hs2
        refine ⟨session.close, ?_, by simpa [Session.close] using hsu2⟩
        rw [lookupA_updateA_self, hsid, Option.map_some']
      · refine ⟨sess2, ?_, hsu2⟩
        rw [lookupA_updateA_ne _ _ _ _ hne]
        exact hs2
    obtain ⟨hndU', hndS', hB', hC', hsub, hnone⟩ :=
      @dirInv_remove_session { st with sessions := updateA id Session.close st.sessions } st' id
        hndU hndSmid hBmid hCmid hcl
    refine ⟨⟨hndU', hndS'⟩, ?_, hB', hC'⟩
    intro id2 sess2 hlk
    have hmid := hsub id2 sess2 hlk
    have hne : id2 ≠ id := by
      intro he
      rw [he, hnone] at hlk
      exact Option.noConfusion hlk
    rw [lookupA_updateA_ne _ _ _ _ hne] at hmid
    exact hA id2 sess2 hmid

theorem dirInv_reachable {st : SharedState} (h : Reachable st) : DirInv st := by
  induction h with
  | init => exact dirInv_init
  | addUser hr hfresh husr ih => exact dirInv_add_user ih hfresh husr
  | addSession hr hfresh hu hc ih => exact dirInv_add_session ih hfresh hu hc
  | authenticate hr hs hsu hu husid ih => exact dirInv_authenticate ih hs hsu hu husid
  | removeSession hr hrm ih =>
    obtain ⟨⟨hndU, hndS⟩, hA, hB, hC⟩ := ih
    obtain ⟨h1, h2, h3, h4, hsub, hnone⟩ := dirInv_remove_session hndU hndS hB hC hrm
    exact ⟨⟨h1, h2⟩, fun id2 sess2 hlk => hA id2 sess2 (hsub id2 sess2 hlk), h3, h4⟩
  | closeSession hr hcl ih => exact dirInv_close_session ih hcl

theorem dirInv_boundSessionInv {st : SharedState} (hinv : DirInv st) :
    boundSessionInv st = true := by
  obtain ⟨⟨hndU, hndS⟩, hA, hB, hC⟩ := hinv
  rw [boundSessionInv, List.all_eq_true]
  intro p hp
  obtain ⟨name, u⟩ := p
  have hu : lookupA name st.users = some u := lookupA_eq_some_of_mem hndU hp
  cases hsid : u.session_id with
  | none =>
    have hfil : st.sessions.filter (fun q => q.2.user == some name && !q.2.closed) = [] := by
      rw [List.filter_eq_nil_iff]
      intro q hq hpred
      simp only [Bool.and_eq_true, beq_iff_eq, Bool.not_eq_true'] at hpred
      obtain ⟨hquser, hqclosed⟩ := hpred
      have hlq : lookupA q.1 st.sessions = some q.2 := lookupA_eq_some_of_mem hndS hq
      obtain ⟨u2, hu2, hsid2⟩ := hB q.1 q.2 hlq name hquser
      rw [hu] at hu2
      obtain rfl := Option.some.inj hu2
      rw [hsid] at hsid2
      exact Option.noConfusion hsid2
    simp only [hsid]
    simp [SharedState.authedSessions, hfil]
  | some s =>
    obtain ⟨sess, hs, hsu⟩ := hC name u hu s hsid
    have hmem : (s, sess) ∈ st.sessions := mem_of_lookupA_eq_some hs
    have hclosed : sess.closed = false := hA s sess hs
    have hfil : st.sessions.filter (fun q => q.2.user == some name && !q.2.closed)
        = [(s, sess)] := by
      apply filter_eq_single _ _ _ (hndS.of_map _) hmem
      intro y hy
      constructor
      · intro hpred
        simp only [Bool.and_eq_true, beq_iff_eq, Bool.not_eq_true'] at hpred
        obtain ⟨hyuser, hyclosed⟩ := hpred
        have hly : lookupA y.1 st.sessions = some y.2 := lookupA_eq_some_of_mem hndS hy
        obtain ⟨u2, hu2, hsid2⟩ := hB y.1 y.2 hly name hyuser
        rw [hu] at hu2
        obtain rfl := Option.some.inj hu2
        rw [hsid] at hsid2
        obtain heq := Option.some.inj hsid2
        obtain ⟨yk, yv⟩ := y
        simp only at heq hly
        rw [← heq] at hly
        rw [hs] at hly
        obtain rfl := Option.some.inj hly
        rw [← heq]
      · intro hy_eq
        rw [hy_eq]
        simp [hsu, hclosed]
    simp only [hsid]
    simp [SharedState.authedSessions, hfil]

/-! ### Claim C5: the bound-session invariant -/

/-- C5, counterexample: the claim quantifies over ANY sequence of the five
directory operations, but `SharedState::authenticate` does not itself check
that the target user is unbound or the session unauthenticated (spec §4.4
places that burden on the caller).  Authenticating two different sessions as
the same user — a sequence of exactly the claimed operations — leaves user
`[97]` pointing at session 2 while sessions 1 and 2 are BOTH live and
authenticated as `[97]`, so "exactly one live session" fails. -/
theorem c5_double_authenticate_breaks_invariant :
    boundSessionInv (applyOps SharedState.new
      [DirOp.addUser [97] (User.new [97] ("h")), DirOp.addSession 1 (Session.new 1),
       DirOp.addSession 2 (Session.new 2), DirOp.authenticate 1 [97],
       DirOp.authenticate 2 [97]]) = false := by
  decide

/-- C5, amended: in every directory state reachable from `SharedState::new` by
`add_user`, `add_session`, `authenticate`, `remove_session` and
`close_session` invoked under the preconditions the server's handlers
establish (fresh usernames with unbound records, fresh unbound live sessions,
and — as `handle_auth`/`handle_auth_create` check — `authenticate` only for an
existing unauthenticated session and an existing user with no bound session),
every user's `session_id` is `some s` exactly when `s` identifies the unique
live session authenticated as that user, and `none` exactly when there is no
such session; removing or closing a session clears its bound user's pointer. -/
theorem c5_bound_session_invariant (st : SharedState) (h : Reachable st) :
    boundSessionInv st = true :=
  dirInv_boundSessionInv (dirInv_reachable h)

/-- C5 witness: the state reached by registering session 1 and authenticating
it as the built-in `luffy` user is reachable under the guarded operations and
satisfies the invariant. -/
theorem c5_witness :
    Reachable ((SharedState.new.add_session 1 (Session.new 1)).authenticate 1
      (strBytes ("luffy")))
  ∧ boundSessionInv ((SharedState.new.add_session 1 (Session.new 1)).authenticate 1
      (strBytes ("luffy"))) = true := by
  have hr : Reachable ((SharedState.new.add_session 1 (Session.new 1)).authenticate 1
      (strBytes ("luffy"))) :=
    @Reachable.authenticate (SharedState.new.add_session 1 (Session.new 1)) 1
      (strBytes ("luffy")) (Session.new 1)
      ((User.new (strBytes ("luffy")) luffyHash).set_access_level .Admin)
      (@Reachable.addSession SharedState.new 1 (Session.new 1) Reachable.init rfl rfl rfl)
      (by decide) rfl (by decide) rfl
  exact ⟨hr, c5_bound_session_invariant _ hr⟩
